import Mathlib

/-!
# Verification of the pyFAI `splitBBoxLUT` LUT builders and reduction kernels

This file gives a shallow embedding, over exact rationals, of the
look-up-table (LUT) construction code of `src/pyFAI/ext/splitBBoxLUT.pyx`
(`HistoBBox1d` / `HistoBBox2d`: boundary computation, bounding-box split and
no-split LUT emission) and of the two-stage OpenCL min/max reduction kernels
(`reduce1` / `reduce2` in `src/unnamed/part_000`), together with theorems
settling the specification claims about them.

Machine floating point is idealised as `ℚ`; the C `<int>` cast (truncation
toward zero) is modelled exactly by `ctrunc`.
-/

namespace SplitBBoxLUT

/-- The C `<int>` cast applied to a floating value truncates toward zero:
`⌊q⌋` for nonnegative `q` and `⌈q⌉` for negative `q`.  This models the
`bin0_min = <int> fbin0_min` casts in `splitBBoxLUT.pyx`. -/
def ctrunc (q : ℚ) : ℤ := if 0 ≤ q then ⌊q⌋ else ⌈q⌉

/-- Modelled from the spec: `get_bin_number` lives in `regrid_common.pxi`,
which is not part of the sources; §4.3 of the spec defines the continuous bin
position as `fmin = (lower − min)/delta`. -/
def get_bin_number (x pos0_min delta : ℚ) : ℚ := (x - pos0_min) / delta

/-- Modelled from the spec: the relative epsilon used by `calc_upper_bound`
(`regrid_common.pxi`, not part of the sources); "an upper bound strictly
greater than the true maximum (small relative epsilon applied)".
`1 + 2⁻²³` is the single-precision relative step. -/
def eps32 : ℚ := 1 + 1 / 8388608

/-- Modelled from the spec: `calc_upper_bound` (`regrid_common.pxi`, not part
of the sources) nudges the scanned maximum strictly upward by a small relative
epsilon so the largest coordinate falls inside the last bin. -/
def calc_upper_bound (v : ℚ) : ℚ := if 0 < v then v * eps32 else v / eps32

/-- The list of integers `a, a+1, …, b-1` (empty when `b ≤ a`); used to model
the C loops `for i in range(bin0_min + 1, bin0_max)`. -/
def intRange (a b : ℤ) : List ℤ :=
  (List.range (b - a).toNat).map (fun k : ℕ => a + (k : ℤ))

/-- Sum of the weights of a list of (bin, weight) contributions. -/
def wsum (l : List (ℤ × ℚ)) : ℚ := (l.map Prod.snd).sum

/-- Clamp `bin0_min < 0` to `0`, as in `if bin0_min < 0: bin0_min = 0`. -/
def clampLo (b : ℤ) : ℤ := if b < 0 then 0 else b

/-- Clamp `bin0_max ≥ bins` to `bins - 1`, as in
`if bin0_max >= bins: bin0_max = bins - 1`. -/
def clampUp (bins b : ℤ) : ℤ := if b ≥ bins then bins - 1 else b

/-- Per-pixel weight emission of `HistoBBox1d.calc_lut` (split path), as a
function of the continuous bin positions `fmin = fbin0_min`,
`fmax = fbin0_max` of the pixel's bounding box.  Mirrors lines 308–335 of
`splitBBoxLUT.pyx`: truncating casts, the skip test
`(bin0_max < 0) or (bin0_min >= bins)`, clamping into `[0, bins-1]`, then
either a single weight `1.0` or the left/right/interior split. -/
def lut_weights (bins : ℤ) (fmin fmax : ℚ) : List (ℤ × ℚ) :=
  let bin0_min' := ctrunc fmin
  let bin0_max' := ctrunc fmax
  if bin0_max' < 0 ∨ bins ≤ bin0_min' then []
  else
    let bin0_max := clampUp bins bin0_max'
    let bin0_min := clampLo bin0_min'
    if bin0_min = bin0_max then [(bin0_min, 1)]
    else
      let inv_area : ℚ := 1 / (fmax - fmin)
      let delta_left : ℚ := (bin0_min + 1 : ℤ) - fmin
      let delta_right : ℚ := fmax - (bin0_max : ℤ)
      (bin0_min, inv_area * delta_left) :: (bin0_max, inv_area * delta_right)
        :: (intRange (bin0_min + 1) bin0_max).map (fun i => (i, inv_area))

/-- Per-pixel emission of `HistoBBox1d.calc_lut_nosplit` as a function of the
continuous bin position `fbin0`; mirrors lines 379–384 of `splitBBoxLUT.pyx`
(truncating cast, range test, single weight `1.0`). -/
def nosplit_weights (bins : ℤ) (fbin0 : ℚ) : List (ℤ × ℚ) :=
  let bin0 := ctrunc fbin0
  if bin0 < 0 ∨ bins ≤ bin0 then [] else [(bin0, 1)]

section CtruncLemmas

lemma ctrunc_of_nonneg {q : ℚ} (h : 0 ≤ q) : ctrunc q = ⌊q⌋ := by
  simp [ctrunc, h]

lemma ctrunc_of_neg {q : ℚ} (h : q < 0) : ctrunc q = ⌈q⌉ := by
  simp [ctrunc, not_le.mpr h]

lemma ctrunc_nonneg {q : ℚ} (h : 0 ≤ q) : 0 ≤ ctrunc q := by
  rw [ctrunc_of_nonneg h]; exact Int.floor_nonneg.mpr h

lemma ctrunc_mono {a b : ℚ} (h : a ≤ b) : ctrunc a ≤ ctrunc b := by
  unfold ctrunc
  by_cases ha : 0 ≤ a
  · rw [if_pos ha, if_pos (ha.trans h)]
    exact Int.floor_le_floor h
  · rw [if_neg ha]
    by_cases hb : 0 ≤ b
    · rw [if_pos hb]
      calc ⌈a⌉ ≤ ⌈(0 : ℚ)⌉ := Int.ceil_le_ceil (le_of_not_le ha)
        _ = 0 := by simp
        _ ≤ ⌊b⌋ := Int.floor_nonneg.mpr hb
    · rw [if_neg hb]
      exact Int.ceil_le_ceil h

lemma ctrunc_le_self {q : ℚ} (h : 0 ≤ q) : (ctrunc q : ℚ) ≤ q := by
  rw [ctrunc_of_nonneg h]; exact Int.floor_le q

lemma lt_ctrunc_add_one {q : ℚ} (h : 0 ≤ q) : q < (ctrunc q : ℚ) + 1 := by
  rw [ctrunc_of_nonneg h]; exact_mod_cast Int.lt_floor_add_one q

lemma ctrunc_neg_of_lt {q : ℚ} (h : ctrunc q < 0) : q < 0 := by
  by_contra hq
  exact absurd (ctrunc_nonneg (not_lt.mp hq)) (not_le.mpr h)

/-- If the truncation is at least one, the value itself is at least the
truncation (in particular it is nonnegative). -/
lemma ctrunc_le_of_one_le {q : ℚ} (h : 1 ≤ ctrunc q) : (ctrunc q : ℚ) ≤ q := by
  rcases le_or_lt 0 q with hq | hq
  · exact ctrunc_le_self hq
  · exfalso
    rw [ctrunc_of_neg hq] at h
    have hc : ⌈q⌉ ≤ ⌈(0 : ℚ)⌉ := Int.ceil_le_ceil hq.le
    simp at hc
    omega

lemma lt_clampLo_add_one (q : ℚ) : q < (clampLo (ctrunc q) : ℚ) + 1 := by
  unfold clampLo
  by_cases h : ctrunc q < 0
  · rw [if_pos h]
    have := ctrunc_neg_of_lt h
    push_cast
    linarith
  · rw [if_neg h]
    rcases le_or_lt 0 q with hq | hq
    · exact lt_ctrunc_add_one hq
    · have h0 : (0 : ℤ) ≤ ctrunc q := not_lt.mp h
      have : (0 : ℚ) ≤ (ctrunc q : ℚ) := by exact_mod_cast h0
      linarith

end CtruncLemmas

section SumLemmas

lemma wsum_nil : wsum [] = 0 := rfl

lemma wsum_cons (b : ℤ) (w : ℚ) (l : List (ℤ × ℚ)) :
    wsum ((b, w) :: l) = w + wsum l := by
  simp [wsum]

lemma wsum_append (l₁ l₂ : List (ℤ × ℚ)) :
    wsum (l₁ ++ l₂) = wsum l₁ + wsum l₂ := by
  simp [wsum]

lemma intRange_length (a b : ℤ) : (intRange a b).length = (b - a).toNat := by
  simp [intRange]

lemma wsum_map_const (a b : ℤ) (c : ℚ) :
    wsum ((intRange a b).map (fun i => (i, c))) = ((b - a).toNat : ℚ) * c := by
  unfold wsum
  rw [List.map_map]
  have h1 : (Prod.snd ∘ fun i : ℤ => (i, c)) = Function.const ℤ c := rfl
  rw [h1, List.map_const, List.sum_replicate, intRange_length, nsmul_eq_mul]

end SumLemmas

section LutWeights1d

lemma floor_lt_of_lt_intCast {bins : ℤ} {q : ℚ} (h : q < bins) : ⌊q⌋ < bins :=
  Int.floor_lt.mpr (by exact_mod_cast h)

/-- A pixel whose (truncated) bin range fails the range test is dropped:
this is exactly the `(bin0_max < 0) or (bin0_min >= bins)` test of
`calc_lut`. -/
lemma lut_weights_skip (bins : ℤ) (fmin fmax : ℚ)
    (h : ctrunc fmax < 0 ∨ bins ≤ ctrunc fmin) :
    lut_weights bins fmin fmax = [] := by
  unfold lut_weights
  exact if_pos h

/-- When the fractional bin range lies inside `[0, bins)` no clamping happens;
if moreover both ends truncate to the same bin the pixel gets the single
weight `1.0`. -/
lemma lut_weights_single (bins : ℤ) (fmin fmax : ℚ)
    (h1 : 0 ≤ fmin) (h2 : fmin ≤ fmax) (h3 : fmax < bins)
    (heq : ⌊fmin⌋ = ⌊fmax⌋) :
    lut_weights bins fmin fmax = [(⌊fmin⌋, 1)] := by
  have h0max : 0 ≤ fmax := h1.trans h2
  unfold lut_weights
  rw [ctrunc_of_nonneg h1, ctrunc_of_nonneg h0max]
  rw [if_neg (by
        push_neg
        exact ⟨Int.floor_nonneg.mpr h0max, floor_lt_of_lt_intCast (h2.trans_lt h3)⟩)]
  have hcu : clampUp bins ⌊fmax⌋ = ⌊fmax⌋ := by
    unfold clampUp
    exact if_neg (not_le.mpr (floor_lt_of_lt_intCast h3))
  have hcl : clampLo ⌊fmin⌋ = ⌊fmin⌋ := by
    unfold clampLo
    exact if_neg (not_lt.mpr (Int.floor_nonneg.mpr h1))
  simp only [hcu, hcl]
  rw [if_pos heq]

/-- When the fractional bin range lies inside `[0, bins)` and spans several
bins, `calc_lut` emits the left fraction to `⌊fmin⌋`, the right fraction to
`⌊fmax⌋` and `inverse_area` to every strictly interior bin. -/
lemma lut_weights_split (bins : ℤ) (fmin fmax : ℚ)
    (h1 : 0 ≤ fmin) (h2 : fmin ≤ fmax) (h3 : fmax < bins)
    (hsplit : ⌊fmin⌋ < ⌊fmax⌋) :
    lut_weights bins fmin fmax =
      (⌊fmin⌋, 1 / (fmax - fmin) * (((⌊fmin⌋ : ℚ) + 1) - fmin)) ::
        (⌊fmax⌋, 1 / (fmax - fmin) * (fmax - (⌊fmax⌋ : ℚ))) ::
        (intRange (⌊fmin⌋ + 1) ⌊fmax⌋).map (fun i => (i, 1 / (fmax - fmin))) := by
  have h0max : 0 ≤ fmax := h1.trans h2
  unfold lut_weights
  rw [ctrunc_of_nonneg h1, ctrunc_of_nonneg h0max]
  rw [if_neg (by
        push_neg
        exact ⟨Int.floor_nonneg.mpr h0max, floor_lt_of_lt_intCast (h2.trans_lt h3)⟩)]
  have hcu : clampUp bins ⌊fmax⌋ = ⌊fmax⌋ := by
    unfold clampUp
    exact if_neg (not_le.mpr (floor_lt_of_lt_intCast h3))
  have hcl : clampLo ⌊fmin⌋ = ⌊fmin⌋ := by
    unfold clampLo
    exact if_neg (not_lt.mpr (Int.floor_nonneg.mpr h1))
  simp only [hcu, hcl]
  rw [if_neg (ne_of_lt hsplit)]
  push_cast
  ring_nf

/-- Strict positivity of the span when the bin range spans several bins. -/
lemma span_pos_of_floor_lt {fmin fmax : ℚ} (_h2 : fmin ≤ fmax)
    (hsplit : ⌊fmin⌋ < ⌊fmax⌋) : 0 < fmax - fmin := by
  have ha : fmin < (⌊fmin⌋ : ℚ) + 1 := Int.lt_floor_add_one fmin
  have hb : ((⌊fmin⌋ : ℚ) + 1) ≤ (⌊fmax⌋ : ℚ) := by exact_mod_cast hsplit
  have hc : (⌊fmax⌋ : ℚ) ≤ fmax := Int.floor_le fmax
  linarith

/-- Partition of unity for the 1D split weights: a pixel whose fractional bin
range lies entirely inside `[0, bins)` has its emitted weights sum to `1`. -/
lemma lut_weights_sum_inside (bins : ℤ) (fmin fmax : ℚ)
    (h1 : 0 ≤ fmin) (h2 : fmin ≤ fmax) (h3 : fmax < bins) :
    wsum (lut_weights bins fmin fmax) = 1 := by
  rcases eq_or_lt_of_le (Int.floor_le_floor h2) with heq | hsplit
  · rw [lut_weights_single bins fmin fmax h1 h2 h3 heq]
    simp [wsum]
  · rw [lut_weights_split bins fmin fmax h1 h2 h3 hsplit]
    rw [wsum_cons, wsum_cons, wsum_map_const]
    have hn' : ((⌊fmax⌋ - (⌊fmin⌋ + 1)).toNat : ℤ) = ⌊fmax⌋ - ⌊fmin⌋ - 1 := by omega
    have hn : ((⌊fmax⌋ - (⌊fmin⌋ + 1)).toNat : ℚ) =
        (⌊fmax⌋ : ℚ) - (⌊fmin⌋ : ℚ) - 1 := by
      exact_mod_cast congrArg (fun z : ℤ => (z : ℚ)) hn'
    rw [hn]
    have hspan : fmax - fmin ≠ 0 := ne_of_gt (span_pos_of_floor_lt h2 hsplit)
    have hfract : Int.fract fmax = fmax - ⌊fmax⌋ := rfl
    field_simp
    ring_nf
    rw [hfract]
    ring

end LutWeights1d

section WeightBounds

lemma mem_intRange {a b i : ℤ} : i ∈ intRange a b ↔ a ≤ i ∧ i < b := by
  unfold intRange
  simp only [List.mem_map, List.mem_range]
  constructor
  · rintro ⟨k, hk, rfl⟩
    omega
  · rintro ⟨hai, hib⟩
    exact ⟨(i - a).toNat, by omega, by omega⟩

lemma clampLo_nonneg (b : ℤ) : 0 ≤ clampLo b := by
  unfold clampLo
  split <;> omega

lemma clampUp_le (bins b : ℤ) : clampUp bins b ≤ bins - 1 ∨ clampUp bins b = b := by
  unfold clampUp
  split
  · exact Or.inl le_rfl
  · exact Or.inr rfl

/-- In the split branch of `calc_lut` (after the range test, clamping, and
`bin0_min ≠ bin0_max`), the clamped bins straddle the pixel's fractional
range: `fmin < bin0_min + 1` and `bin0_max ≤ fmax`. -/
lemma axis_split_facts (bins : ℤ) (fmin fmax : ℚ)
    (hb : 1 ≤ bins) (hle : fmin ≤ fmax)
    (hs1 : ¬ ctrunc fmax < 0) (hs2 : ¬ bins ≤ ctrunc fmin)
    (hne : clampLo (ctrunc fmin) ≠ clampUp bins (ctrunc fmax)) :
    clampLo (ctrunc fmin) < clampUp bins (ctrunc fmax) ∧
    fmin < (clampLo (ctrunc fmin) : ℚ) + 1 ∧
    ((clampUp bins (ctrunc fmax) : ℚ)) ≤ fmax := by
  have hmono : ctrunc fmin ≤ ctrunc fmax := ctrunc_mono hle
  have hle' : clampLo (ctrunc fmin) ≤ clampUp bins (ctrunc fmax) := by
    unfold clampLo clampUp
    split <;> split <;> omega
  have hlt : clampLo (ctrunc fmin) < clampUp bins (ctrunc fmax) :=
    lt_of_le_of_ne hle' hne
  refine ⟨hlt, lt_clampLo_add_one fmin, ?_⟩
  have hmax1 : 1 ≤ clampUp bins (ctrunc fmax) := by
    have := clampLo_nonneg (ctrunc fmin)
    omega
  unfold clampUp at hmax1 ⊢
  by_cases hcu : ctrunc fmax ≥ bins
  · rw [if_pos hcu] at hmax1 ⊢
    have h1 : 1 ≤ ctrunc fmax := by omega
    have h2 : (ctrunc fmax : ℚ) ≤ fmax := ctrunc_le_of_one_le h1
    have h3 : ((bins : ℚ) - 1) ≤ (ctrunc fmax : ℚ) - 1 := by
      have : (bins : ℚ) ≤ (ctrunc fmax : ℚ) := by exact_mod_cast hcu
      linarith
    push_cast
    push_cast at h3
    linarith
  · rw [if_neg hcu] at hmax1 ⊢
    exact ctrunc_le_of_one_le hmax1

/-- All weights emitted by the 1D split path lie in `[0, 1]` (given at least
one output bin and an ordered fractional range). -/
lemma lut_weights_mem_bounds (bins : ℤ) (fmin fmax : ℚ)
    (hb : 1 ≤ bins) (hle : fmin ≤ fmax) :
    ∀ bw ∈ lut_weights bins fmin fmax, 0 ≤ bw.2 ∧ bw.2 ≤ 1 := by
  intro bw hmem
  unfold lut_weights at hmem
  by_cases hskip : ctrunc fmax < 0 ∨ bins ≤ ctrunc fmin
  · rw [if_pos hskip] at hmem
    simp at hmem
  · rw [if_neg hskip] at hmem
    have hsk1 : ¬ ctrunc fmax < 0 := fun h => hskip (Or.inl h)
    have hsk2 : ¬ bins ≤ ctrunc fmin := fun h => hskip (Or.inr h)
    dsimp only at hmem
    by_cases heq : clampLo (ctrunc fmin) = clampUp bins (ctrunc fmax)
    · rw [if_pos heq] at hmem
      simp only [List.mem_singleton] at hmem
      rw [hmem]
      norm_num
    · rw [if_neg heq] at hmem
      obtain ⟨hlt, hA, hB⟩ := axis_split_facts bins fmin fmax hb hle hsk1 hsk2 heq
      set bmin := clampLo (ctrunc fmin) with hbmin
      set bmax := clampUp bins (ctrunc fmax) with hbmax
      have hb1 : (bmin : ℚ) + 1 ≤ (bmax : ℚ) := by exact_mod_cast hlt
      have hdl : 0 < (bmin : ℚ) + 1 - fmin := by linarith
      have hdr : 0 ≤ fmax - (bmax : ℚ) := by linarith
      have hs : 0 < fmax - fmin := by linarith
      have hinv : (0 : ℚ) ≤ 1 / (fmax - fmin) := le_of_lt (one_div_pos.mpr hs)
      simp only [List.mem_cons, List.mem_map] at hmem
      rcases hmem with h | h | ⟨i, hi, h⟩
      · rw [h]
        refine ⟨?_, ?_⟩ <;> push_cast
        · exact mul_nonneg hinv hdl.le
        · rw [show (1 / (fmax - fmin) * ((bmin : ℚ) + 1 - fmin)) =
              ((bmin : ℚ) + 1 - fmin) / (fmax - fmin) by ring]
          rw [div_le_one hs]
          linarith
      · rw [h]
        refine ⟨mul_nonneg hinv hdr, ?_⟩
        rw [show (1 / (fmax - fmin) * (fmax - (bmax : ℚ))) =
            (fmax - (bmax : ℚ)) / (fmax - fmin) by ring]
        rw [div_le_one hs]
        linarith
      · rw [← h]
        have hint := mem_intRange.mp hi
        have hgap : (bmin : ℚ) + 2 ≤ (bmax : ℚ) := by
          have h2' : bmin + 2 ≤ bmax := by omega
          exact_mod_cast h2'
        have hone : (1 : ℚ) ≤ fmax - fmin := by linarith
        refine ⟨hinv, ?_⟩
        rw [div_le_one hs]
        linarith

end WeightBounds

/-- Per-pixel weight emission of `HistoBBox2d.calc_lut` as a function of the
per-axis continuous bin positions; mirrors lines 615–694 of
`splitBBoxLUT.pyx`: truncating casts, the combined range test, per-axis
clamping, then the four structural cases (single/single, single/spread,
spread/single, spread/spread) with combined bin index `bin0*bins1 + bin1`. -/
def lut_weights2d (bins0 bins1 : ℤ) (f0min f0max f1min f1max : ℚ) :
    List (ℤ × ℚ) :=
  let bin0_min' := ctrunc f0min
  let bin0_max' := ctrunc f0max
  let bin1_min' := ctrunc f1min
  let bin1_max' := ctrunc f1max
  if bin0_max' < 0 ∨ bins0 ≤ bin0_min' ∨ bin1_max' < 0 ∨ bins1 ≤ bin1_min' then
    []
  else
    let bin0_max := clampUp bins0 bin0_max'
    let bin0_min := clampLo bin0_min'
    let bin1_max := clampUp bins1 bin1_max'
    let bin1_min := clampLo bin1_min'
    if bin0_min = bin0_max then
      if bin1_min = bin1_max then
        [(bin0_min * bins1 + bin1_min, 1)]
      else
        let delta_down : ℚ := ((bin1_min + 1 : ℤ) : ℚ) - f1min
        let delta_up : ℚ := f1max - ((bin1_max : ℤ) : ℚ)
        let inv_area : ℚ := 1 / (f1max - f1min)
        (bin0_min * bins1 + bin1_min, inv_area * delta_down) ::
          (bin0_min * bins1 + bin1_max, inv_area * delta_up) ::
          (intRange (bin1_min + 1) bin1_max).map
            (fun j => (bin0_min * bins1 + j, inv_area))
    else
      if bin1_min = bin1_max then
        let inv_area : ℚ := 1 / (f0max - f0min)
        let delta_left : ℚ := ((bin0_min + 1 : ℤ) : ℚ) - f0min
        let delta_right : ℚ := f0max - ((bin0_max : ℤ) : ℚ)
        (bin0_min * bins1 + bin1_min, inv_area * delta_left) ::
          (bin0_max * bins1 + bin1_min, inv_area * delta_right) ::
          (intRange (bin0_min + 1) bin0_max).map
            (fun i => (i * bins1 + bin1_min, inv_area))
      else
        let delta_left : ℚ := ((bin0_min + 1 : ℤ) : ℚ) - f0min
        let delta_right : ℚ := f0max - ((bin0_max : ℤ) : ℚ)
        let delta_down : ℚ := ((bin1_min + 1 : ℤ) : ℚ) - f1min
        let delta_up : ℚ := f1max - ((bin1_max : ℤ) : ℚ)
        let inv_area : ℚ := 1 / ((f0max - f0min) * (f1max - f1min))
        (bin0_min * bins1 + bin1_min, inv_area * delta_left * delta_down) ::
          (bin0_min * bins1 + bin1_max, inv_area * delta_left * delta_up) ::
          (bin0_max * bins1 + bin1_min, inv_area * delta_right * delta_down) ::
          (bin0_max * bins1 + bin1_max, inv_area * delta_right * delta_up) ::
          ((intRange (bin0_min + 1) bin0_max).flatMap (fun i =>
              (i * bins1 + bin1_min, inv_area * delta_down) ::
                (intRange (bin1_min + 1) bin1_max).map
                  (fun j => (i * bins1 + j, inv_area)) ++
                [(i * bins1 + bin1_max, inv_area * delta_up)]) ++
            (intRange (bin1_min + 1) bin1_max).flatMap (fun j =>
              [(bin0_min * bins1 + j, inv_area * delta_left),
               (bin0_max * bins1 + j, inv_area * delta_right)]))

/-- One record of the sparse LUT: `SparseBuilder.cinsert(bin, idx, weight)`.
Modelled from the spec (§4.5): the builder (`sparse_builder.pyx`, not part of
the sources) only appends `(bin_index, pixel_index, weight)` records, so the
built LUT is faithfully represented by the list of insertions. -/
structure LutEntry where
  bin : ℤ
  idx : ℕ
  weight : ℚ
deriving DecidableEq

/-- The secondary-dimension filter of `calc_lut` / `calc_lut_nosplit`:
`check_pos1 and ((cpos1_max[idx] < pos1_min) or (cpos1_min[idx] > pos1_max))`.
`none` models `check_pos1 == False`. -/
def pos1_reject (p1 : Option (List ℚ × List ℚ × ℚ × ℚ)) (idx : ℕ) : Bool :=
  match p1 with
  | none => false
  | some (c1min, c1max, p1min, p1max) =>
      decide (c1max.getD idx 0 < p1min) || decide (p1max < c1min.getD idx 0)

/-- `HistoBBox1d.calc_lut` (split path), lines 297–337: loop over all pixels,
skipping masked ones and those rejected by the secondary filter, emitting the
split weights for the stored bounding-box interval. -/
def calc_lut (delta pos0_min : ℚ) (bins : ℤ) (inf sup : List ℚ)
    (cmask : ℕ → Bool) (p1 : Option (List ℚ × List ℚ × ℚ × ℚ)) :
    List LutEntry :=
  (List.range inf.length).flatMap (fun idx =>
    if cmask idx then []
    else if pos1_reject p1 idx then []
    else
      (lut_weights bins (get_bin_number (inf.getD idx 0) pos0_min delta)
          (get_bin_number (sup.getD idx 0) pos0_min delta)).map
        (fun bw => ⟨bw.1, idx, bw.2⟩))

/-- `HistoBBox1d.calc_lut_nosplit`, lines 369–385: one entry of weight `1.0`
per retained in-range pixel. -/
def calc_lut_nosplit (delta pos0_min : ℚ) (bins : ℤ) (cpos0 : List ℚ)
    (cmask : ℕ → Bool) (p1 : Option (List ℚ × List ℚ × ℚ × ℚ)) :
    List LutEntry :=
  (List.range cpos0.length).flatMap (fun idx =>
    if cmask idx then []
    else if pos1_reject p1 idx then []
    else
      (nosplit_weights bins
          (get_bin_number (cpos0.getD idx 0) pos0_min delta)).map
        (fun bw => ⟨bw.1, idx, bw.2⟩))

/-- `HistoBBox2d.calc_lut`, lines 605–695: loop over all pixels, skipping
masked ones, emitting the 2D split weights for the stored per-axis
bounding-box intervals. -/
def calc_lut2d (delta0 pos0_min delta1 pos1_min : ℚ) (bins0 bins1 : ℤ)
    (inf0 sup0 inf1 sup1 : List ℚ) (cmask : ℕ → Bool) : List LutEntry :=
  (List.range inf0.length).flatMap (fun idx =>
    if cmask idx then []
    else
      (lut_weights2d bins0 bins1
          (get_bin_number (inf0.getD idx 0) pos0_min delta0)
          (get_bin_number (sup0.getD idx 0) pos0_min delta0)
          (get_bin_number (inf1.getD idx 0) pos1_min delta1)
          (get_bin_number (sup1.getD idx 0) pos1_min delta1)).map
        (fun bw => ⟨bw.1, idx, bw.2⟩))

/-- The clamp `if not allow_pos0_neg and lower < 0: lower = 0` applied to a
candidate lower bound before min/max tracking. -/
def clamp_lower (allow : Bool) (x : ℚ) : ℚ :=
  if allow = false ∧ x < 0 then 0 else x

/-- The seed of the running min/max scan of `HistoBBox1d.calc_boundaries`
(lines 191–193): both begin at `cpos0[0]`, clamped to `0` when negative
primary coordinates are disallowed. -/
def bounds_seed (allow : Bool) (c0 : ℚ) : ℚ × ℚ :=
  if allow = false ∧ c0 < 0 then (0, 0) else (c0, c0)

/-- The running min/max loop shared by all `calc_boundaries` variants:
unmasked pixels fold their (already clamped) lower/upper values into the
accumulator; masked pixels leave it unchanged. -/
def calc_boundaries_scan (cmask : ℕ → Bool) (lows highs : List ℚ)
    (seed : ℚ × ℚ) : ℚ × ℚ :=
  (List.range lows.length).foldl
    (fun acc idx =>
      if cmask idx then acc
      else (min acc.1 (lows.getD idx 0), max acc.2 (highs.getD idx 0)))
    seed

/-- The stored per-pixel lower bounds `cpos0_inf[idx] = c - d` of
`HistoBBox1d.calc_boundaries` (line 203): stored before the negative clamp is
applied, so they keep the raw value `coordinate - extent`. -/
def cpos0_inf (cpos0 dpos0 : List ℚ) : List ℚ :=
  List.zipWith (fun c d => c - d) cpos0 dpos0

/-- The stored per-pixel upper bounds `cpos0_sup[idx] = c + d` (line 202). -/
def cpos0_sup (cpos0 dpos0 : List ℚ) : List ℚ :=
  List.zipWith (fun c d => c + d) cpos0 dpos0

/-- Final range selection of `calc_boundaries` (lines 212–219): an explicit
range overrides the scan, the minimum is clamped to `0` when negative primary
coordinates are disallowed, and the inclusive maximum is nudged strictly
upward.  Returns `(pos0_min, pos0_maxin, pos0_max)`. -/
def finalize_bounds (allow : Bool) (scanned : ℚ × ℚ)
    (range0 : Option (ℚ × ℚ)) : ℚ × ℚ × ℚ :=
  let pm := match range0 with
    | some r => r
    | none => scanned
  let pmin := if allow = false ∧ pm.1 < 0 then 0 else pm.1
  (pmin, pm.2, calc_upper_bound pm.2)

/-- Final range selection for the secondary axis of
`HistoBBox2d.calc_boundaries` (lines 564–575): like `finalize_bounds` but
with no negative clamp. -/
def finalize_bounds1 (scanned : ℚ × ℚ) (range1 : Option (ℚ × ℚ)) :
    ℚ × ℚ × ℚ :=
  let pm := match range1 with
    | some r => r
    | none => scanned
  (pm.1, pm.2, calc_upper_bound pm.2)

/-- The chi-wrap clamp of `HistoBBox2d.calc_boundaries` (lines 540–543),
with `piQ` a rational stand-in for `pi`:
`if upper1 > (2 - chiDiscAtPi)*pi: upper1 = (2 - chiDiscAtPi)*pi`. -/
def chi_clamp_upper (chiDiscAtPi : Bool) (piQ x : ℚ) : ℚ :=
  let top := (2 - (if chiDiscAtPi then (1 : ℚ) else 0)) * piQ
  if top < x then top else x

/-- `if lower1 < (-chiDiscAtPi)*pi: lower1 = (-chiDiscAtPi)*pi`. -/
def chi_clamp_lower (chiDiscAtPi : Bool) (piQ x : ℚ) : ℚ :=
  let bot := (-(if chiDiscAtPi then (1 : ℚ) else 0)) * piQ
  if x < bot then bot else x

/-- Result of the 1D constructor. -/
structure Hb1d where
  size : ℕ
  bins : ℤ
  split_used : Bool
  check_pos1 : Bool
  pos0_min : ℚ
  pos0_maxin : ℚ
  pos0_max : ℚ
  delta : ℚ
  lut : List LutEntry
  bin_centers : List ℚ
deriving DecidableEq

/-- `numpy.linspace(a, b, n)` restricted to the uses in this file:
`n` evenly spaced points from `a` to `b` inclusive. -/
def linspace (a b : ℚ) (n : ℤ) : List ℚ :=
  if n ≤ 0 then []
  else if n = 1 then [a]
  else (List.range n.toNat).map
    (fun i => a + (i : ℚ) * (b - a) / ((n.toNat : ℚ) - 1))

/-- `HistoBBox1d.__init__` (lines 85–173): splitting is silently disabled on
an absent or size-mismatched `delta_pos0`; a size-mismatched mask or (when a
`pos1_range` is requested) size-mismatched `pos1`/`delta_pos1` is a fatal
assertion; boundaries are scanned (split variant stores the raw per-pixel
bounds), the bin width is derived, and the split or no-split LUT is built. -/
def HistoBBox1d_init (pos0 : List ℚ) (delta_pos0 : Option (List ℚ))
    (pos1 delta_pos1 : Option (List ℚ)) (bins : ℤ)
    (pos0_range pos1_range : Option (ℚ × ℚ)) (mask : Option (List Bool))
    (allow_pos0_neg : Bool) : Except String Hb1d :=
  let size := pos0.length
  let dpos0 : Option (List ℚ) :=
    match delta_pos0 with
    | none => none
    | some d => if d.length = size then some d else none
  let mask_check : Except String (ℕ → Bool) :=
    match mask with
    | some m =>
        if m.length = size then Except.ok (fun idx => m.getD idx false)
        else Except.error ("mask size")
    | none => Except.ok (fun _ => false)
  match mask_check with
  | Except.error e => Except.error e
  | Except.ok cmask =>
    let bres : Except String ((ℚ × ℚ × ℚ) × Option (List ℚ × List ℚ)) :=
      match dpos0 with
      | some d =>
          if pos0.length = 0 then Except.error ("index 0 out of bounds")
          else
            Except.ok
              (finalize_bounds allow_pos0_neg
                (calc_boundaries_scan cmask
                  ((cpos0_inf pos0 d).map (clamp_lower allow_pos0_neg))
                  (cpos0_sup pos0 d)
                  (bounds_seed allow_pos0_neg pos0.headI)) pos0_range,
               some (cpos0_inf pos0 d, cpos0_sup pos0 d))
      | none =>
          match pos0_range with
          | some r => Except.ok (finalize_bounds allow_pos0_neg (0, 0) (some r), none)
          | none =>
              if pos0.length = 0 then Except.error ("index 0 out of bounds")
              else
                Except.ok
                  (finalize_bounds allow_pos0_neg
                    (calc_boundaries_scan cmask
                      (pos0.map (clamp_lower allow_pos0_neg))
                      (pos0.map (clamp_lower allow_pos0_neg))
                      (bounds_seed allow_pos0_neg pos0.headI)) none, none)
    let p1res : Except String (Option (List ℚ × List ℚ × ℚ × ℚ)) :=
      match pos1_range with
      | none => Except.ok none
      | some r =>
          match pos1, delta_pos1 with
          | some p1, some d1 =>
              if p1.length = size ∧ d1.length = size then
                Except.ok (some (List.zipWith (fun c d => c - d) p1 d1,
                                 List.zipWith (fun c d => c + d) p1 d1,
                                 r.1, calc_upper_bound r.2))
              else Except.error ("pos1 size")
          | _, _ => Except.error ("pos1 size")
    match bres, p1res with
    | Except.error e, _ => Except.error e
    | Except.ok _, Except.error e => Except.error e
    | Except.ok bi, Except.ok p1f =>
        let pmin := bi.1.1
        let pmaxin := bi.1.2.1
        let pmax := bi.1.2.2
        let infsup := bi.2
        let delta := (pmax - pmin) / (bins : ℚ)
        let lut := infsup.elim
          (calc_lut_nosplit delta pmin bins pos0 cmask p1f)
          (fun is0 => calc_lut delta pmin bins is0.1 is0.2 cmask p1f)
        Except.ok
          { size := size, bins := bins, split_used := infsup.isSome,
            check_pos1 := p1f.isSome, pos0_min := pmin, pos0_maxin := pmaxin,
            pos0_max := pmax, delta := delta, lut := lut,
            bin_centers := linspace (pmin + delta / 2) (pmax - delta / 2) bins }

/-- Result of the 2D constructor. -/
structure Hb2d where
  size : ℕ
  bins0 : ℤ
  bins1 : ℤ
  pos0_min : ℚ
  pos0_maxin : ℚ
  pos0_max : ℚ
  delta0 : ℚ
  pos1_min : ℚ
  pos1_maxin : ℚ
  pos1_max : ℚ
  delta1 : ℚ
  lut : List LutEntry
  bin_centers0 : List ℚ
  bin_centers1 : List ℚ
deriving DecidableEq

/-- `HistoBBox2d.__init__` (lines 405–496): `delta_pos0`, `pos1` and
`delta_pos1` are hard asserts (absent `delta_pos0` raises on `None.size`,
there is no no-split fallback); requested bin counts are floored to 1; the
boundary scan always runs (it reads `cpos0[0]`), clamping axis-0 lower bounds
and chi-wrapping axis-1 bounds before both storage and tracking; the 2D split
LUT is built.  `piQ` is a rational stand-in for `pi`. -/
def HistoBBox2d_init (pos0 : List ℚ) (delta_pos0 : Option (List ℚ))
    (pos1 delta_pos1 : Option (List ℚ)) (bins0in bins1in : ℤ)
    (pos0_range pos1_range : Option (ℚ × ℚ)) (mask : Option (List Bool))
    (allow_pos0_neg chiDiscAtPi : Bool) (piQ : ℚ) : Except String Hb2d :=
  let size := pos0.length
  match delta_pos0 with
  | none => Except.error ("AttributeError: None has no attribute size")
  | some d0 =>
    if d0.length ≠ size then Except.error ("delta_pos0.size == self.size")
    else
      match pos1, delta_pos1 with
      | some p1, some d1 =>
        if p1.length ≠ size then Except.error ("pos1 size")
        else if d1.length ≠ size then Except.error ("delta_pos1.size == self.size")
        else
          let bins0 := if bins0in ≤ 0 then 1 else bins0in
          let bins1 := if bins1in ≤ 0 then 1 else bins1in
          let mask_check : Except String (ℕ → Bool) :=
            match mask with
            | some m =>
                if m.length = size then Except.ok (fun idx => m.getD idx false)
                else Except.error ("mask size")
            | none => Except.ok (fun _ => false)
          match mask_check with
          | Except.error e => Except.error e
          | Except.ok cmask =>
            if pos0.length = 0 then Except.error ("index 0 out of bounds")
            else
              let inf0 := (cpos0_inf pos0 d0).map (clamp_lower allow_pos0_neg)
              let sup0 := cpos0_sup pos0 d0
              let inf1 := (cpos0_inf p1 d1).map (chi_clamp_lower chiDiscAtPi piQ)
              let sup1 := (cpos0_sup p1 d1).map (chi_clamp_upper chiDiscAtPi piQ)
              let b0 := finalize_bounds allow_pos0_neg
                (calc_boundaries_scan cmask inf0 sup0 (pos0.headI, pos0.headI))
                pos0_range
              let b1 := finalize_bounds1
                (calc_boundaries_scan cmask inf1 sup1 (p1.headI, p1.headI))
                pos1_range
              let delta0 := (b0.2.2 - b0.1) / (bins0 : ℚ)
              let delta1 := (b1.2.2 - b1.1) / (bins1 : ℚ)
              Except.ok
                { size := size, bins0 := bins0, bins1 := bins1,
                  pos0_min := b0.1, pos0_maxin := b0.2.1, pos0_max := b0.2.2,
                  delta0 := delta0,
                  pos1_min := b1.1, pos1_maxin := b1.2.1, pos1_max := b1.2.2,
                  delta1 := delta1,
                  lut := calc_lut2d delta0 b0.1 delta1 b1.1 bins0 bins1
                    inf0 sup0 inf1 sup1 cmask,
                  bin_centers0 := linspace (b0.1 + delta0 / 2) (b0.2.2 - delta0 / 2) bins0,
                  bin_centers1 := linspace (b1.1 + delta1 / 2) (b1.2.2 - delta1 / 2) bins1 }
      | _, _ => Except.error ("pos1 size")

/-- Written from the spec's words, for comparison with the code: the maximum
of the upper bounds "taken over unmasked pixels only". -/
def spec_unmasked_max (highs : List ℚ) (cmask : ℕ → Bool) : Option ℚ :=
  (((List.range highs.length).filter (fun i => !cmask i)).map
    (fun i => highs.getD i 0)).max?

/-- Written from the spec's words, for comparison with the code: the minimum
of the lower bounds "taken over unmasked pixels only". -/
def spec_unmasked_min (lows : List ℚ) (cmask : ℕ → Bool) : Option ℚ :=
  (((List.range lows.length).filter (fun i => !cmask i)).map
    (fun i => lows.getD i 0)).min?

/-- Total weight of a list of LUT entries. -/
def lsum (l : List LutEntry) : ℚ := (l.map LutEntry.weight).sum

section PixelSlice

lemma filter_flatMap {α β : Type} (l : List α) (f : α → List β) (p : β → Bool) :
    (l.flatMap f).filter p = l.flatMap (fun a => (f a).filter p) := by
  induction l with
  | nil => rfl
  | cons a t ih => simp [List.flatMap_cons, List.filter_append, ih]

lemma flatMap_eq_single {g : ℕ → List LutEntry} {n idx : ℕ} (hn : idx < n)
    (hz : ∀ j, j ≠ idx → g j = []) : (List.range n).flatMap g = g idx := by
  induction n with
  | zero => omega
  | succ m ih =>
    rw [List.range_succ, List.flatMap_append]
    rcases Nat.lt_or_ge idx m with h | h
    · rw [ih h]
      simp [hz m (by omega)]
    · have hm : idx = m := by omega
      subst hm
      have hnil : (List.range idx).flatMap g = [] := by
        apply List.flatMap_eq_nil_iff.mpr
        intro j hj
        exact hz j (by simp at hj; omega)
      simp [hnil]

/-- Extracting the entries of a single pixel out of a builder loop: all three
builders have the shape
`(range n).flatMap (fun j => if gate j then [] else tag j (w j))`. -/
lemma filter_flatMap_pixel (n idx : ℕ) (gate : ℕ → Bool)
    (w : ℕ → List (ℤ × ℚ)) (hn : idx < n) (hg : gate idx = false) :
    (((List.range n).flatMap (fun j =>
        if gate j then []
        else (w j).map (fun bw => LutEntry.mk bw.1 j bw.2))).filter
      (fun e => e.idx == idx)) =
    (w idx).map (fun bw => LutEntry.mk bw.1 idx bw.2) := by
  rw [filter_flatMap]
  have hinner : ∀ j, ((if gate j then []
      else (w j).map (fun bw => LutEntry.mk bw.1 j bw.2)).filter
        (fun e => e.idx == idx)) =
      if j = idx then (w idx).map (fun bw => LutEntry.mk bw.1 idx bw.2)
      else [] := by
    intro j
    by_cases hj : j = idx
    · subst hj
      rw [if_pos rfl, hg, if_neg (by simp)]
      apply List.filter_eq_self.mpr
      intro e he
      simp only [List.mem_map] at he
      obtain ⟨bw, _, rfl⟩ := he
      simp
    · rw [if_neg hj]
      by_cases hgj : gate j
      · rw [if_pos hgj]
        rfl
      · rw [if_neg hgj]
        apply List.filter_eq_nil_iff.mpr
        intro e he
        simp only [List.mem_map] at he
        obtain ⟨bw, _, rfl⟩ := he
        simp [hj]
  calc (List.range n).flatMap (fun j => ((if gate j then []
          else (w j).map (fun bw => LutEntry.mk bw.1 j bw.2)).filter
            (fun e => e.idx == idx)))
      = (List.range n).flatMap (fun j =>
          if j = idx then (w idx).map (fun bw => LutEntry.mk bw.1 idx bw.2)
          else []) := by
        apply List.flatMap_congr
        intro j _
        exact hinner j
    _ = (w idx).map (fun bw => LutEntry.mk bw.1 idx bw.2) := by
        rw [flatMap_eq_single hn (fun j hj => if_neg hj)]
        exact if_pos rfl

lemma lsum_tagged (idx : ℕ) (l : List (ℤ × ℚ)) :
    lsum (l.map (fun bw => LutEntry.mk bw.1 idx bw.2)) = wsum l := by
  unfold lsum wsum
  rw [List.map_map]
  rfl

/-- The two successive skip tests of a builder body collapse into one gate. -/
lemma gate_collapse (a b : Bool) (x : List LutEntry) :
    (if a = true then [] else if b = true then [] else x) =
    (if (a || b) = true then [] else x) := by
  cases a <;> cases b <;> simp

end PixelSlice

section NosplitWeights

lemma nosplit_weights_in (bins : ℤ) (fbin : ℚ)
    (h0 : 0 ≤ ⌊fbin⌋) (h1 : ⌊fbin⌋ < bins) :
    nosplit_weights bins fbin = [(⌊fbin⌋, 1)] := by
  have hf : 0 ≤ fbin := Int.floor_nonneg.mp h0
  unfold nosplit_weights
  rw [ctrunc_of_nonneg hf, if_neg (by push_neg; omega)]

lemma nosplit_weights_skip (bins : ℤ) (fbin : ℚ)
    (h : ctrunc fbin < 0 ∨ bins ≤ ctrunc fbin) :
    nosplit_weights bins fbin = [] := by
  unfold nosplit_weights
  exact if_pos h

end NosplitWeights

end SplitBBoxLUT

namespace ReductionKernel

/-- Merge of two `(min, max)` accumulators, as performed element-wise by the
`(mine.x < other.x) ? mine.x : other.x` / `(mine.y > other.y) ? …` pairs in
`reduce1`/`reduce2`.  The float2 accumulator initialised to
`(INFINITY, -INFINITY)` is modelled by `Option`, `none` standing for the
never-updated initial value (a neutral element of the merge). -/
def mergeMM : Option (ℚ × ℚ) → Option (ℚ × ℚ) → Option (ℚ × ℚ)
  | none, b => b
  | some a, none => some a
  | some a, some b => some (min a.1 b.1, max a.2 b.2)

/-- The sequential strided accumulation of `reduce1` (lines 46–51): thread
`gid` of `gsize` total threads folds elements `gid, gid+gsize, …` of the
buffer into a running `(min, max)`. -/
def threadAcc (buffer : List ℚ) (gid gsize : ℕ) : Option (ℚ × ℚ) :=
  ((List.range buffer.length).filter (fun j => j % gsize == gid)).foldl
    (fun acc j => mergeMM acc (some (buffer.getD j 0, buffer.getD j 0))) none

/-- One halving round of the local-memory reduction (lines 63–81): lanes
`l < active_threads` merge slot `l + active_threads` into slot `l`; all other
slots are unchanged. -/
def halveStep (s : List (Option (ℚ × ℚ))) (active : ℕ) :
    List (Option (ℚ × ℚ)) :=
  (List.range s.length).map (fun l =>
    if l < active then mergeMM (s.getD l none) (s.getD (l + active) none)
    else s.getD l none)

/-- The successive values taken by `active_threads` in the
`while (active_threads != 2) { active_threads /= 2; … }` loop:
`wg/2, wg/4, …, 2`.  Note the loop exits when TWO active lanes remain.  The
fuel argument (first) bounds the recursion; `fuel = wg` suffices. -/
def activeSeqAux : ℕ → ℕ → List ℕ
  | 0, _ => []
  | fuel + 1, wg => if 2 < wg then wg / 2 :: activeSeqAux fuel (wg / 2) else []

/-- `activeSeq wg` = the rounds performed for a workgroup of size `wg`. -/
def activeSeq (wg : ℕ) : List ℕ := activeSeqAux wg wg

/-- The full barrier-synchronised halving reduction over local memory. -/
def scratchReduce (s : List (Option (ℚ × ℚ))) (wg : ℕ) :
    List (Option (ℚ × ℚ)) :=
  (activeSeq wg).foldl halveStep s

/-- `reduce1` (lines 34–85): each of `numGroups` workgroups of `wg` threads
stride-accumulates over the buffer, halving-merges its local scratch down to
two active lanes, and lane 0 writes `scratch[0]` — a single float2 — to
`preresult[group]`. -/
def reduce1 (buffer : List ℚ) (wg numGroups : ℕ) : List (Option (ℚ × ℚ)) :=
  (List.range numGroups).map (fun g =>
    (scratchReduce
      ((List.range wg).map
        (fun l => threadAcc buffer (g * wg + l) (numGroups * wg)))
      wg).getD 0 none)

/-- `reduce2` (lines 87–125): one workgroup of `wg` threads loads
`preresult[local_index]`, halving-merges down to two active lanes, and writes
`vload4(0, scratch)` — the float4 made of `scratch[0]` and `scratch[1]`. -/
def reduce2 (preresult : List (Option (ℚ × ℚ))) (wg : ℕ) :
    Option (ℚ × ℚ) × Option (ℚ × ℚ) :=
  let s := scratchReduce ((List.range wg).map (fun l => preresult.getD l none)) wg
  (s.getD 0 none, s.getD 1 none)

/-- The two-stage pipeline (`reduce1` with `numGroups` groups, `reduce2` over
the per-group partials), with the two float2 halves of the emitted float4
merged into the final `(min, max)` pair. -/
def reduce_pipeline (buffer : List ℚ) (wg numGroups : ℕ) : Option (ℚ × ℚ) :=
  let r2 := reduce2 (reduce1 buffer wg numGroups) wg
  mergeMM r2.1 r2.2

/-- The synthetic ramp buffer `0, 1, …, n-1` of the claimed test. -/
def rampBuffer (n : ℕ) : List ℚ := (List.range n).map (fun i => (i : ℚ))

end ReductionKernel

namespace SplitBBoxLUT

section Claim1

/-- Helper: `calc_lut` rewritten with its two successive skip tests collapsed
into one boolean gate, so the per-pixel slice lemma applies. -/
lemma calc_lut_gate (delta pos0_min : ℚ) (bins : ℤ) (inf sup : List ℚ)
    (cmask : ℕ → Bool) (p1 : Option (List ℚ × List ℚ × ℚ × ℚ)) :
    calc_lut delta pos0_min bins inf sup cmask p1 =
    (List.range inf.length).flatMap (fun j =>
      if (cmask j || pos1_reject p1 j) then []
      else (lut_weights bins (get_bin_number (inf.getD j 0) pos0_min delta)
          (get_bin_number (sup.getD j 0) pos0_min delta)).map
        (fun bw => LutEntry.mk bw.1 j bw.2)) := by
  unfold calc_lut
  apply List.flatMap_congr
  intro j _
  exact gate_collapse (cmask j) (pos1_reject p1 j) _

/-- Helper: ditto for `calc_lut_nosplit`. -/
lemma calc_lut_nosplit_gate (delta pos0_min : ℚ) (bins : ℤ) (cpos0 : List ℚ)
    (cmask : ℕ → Bool) (p1 : Option (List ℚ × List ℚ × ℚ × ℚ)) :
    calc_lut_nosplit delta pos0_min bins cpos0 cmask p1 =
    (List.range cpos0.length).flatMap (fun j =>
      if (cmask j || pos1_reject p1 j) then []
      else (nosplit_weights bins
          (get_bin_number (cpos0.getD j 0) pos0_min delta)).map
        (fun bw => LutEntry.mk bw.1 j bw.2)) := by
  unfold calc_lut_nosplit
  apply List.flatMap_congr
  intro j _
  exact gate_collapse (cmask j) (pos1_reject p1 j) _

/-- C1, counterexample to the claim as stated: with `delta = 1`,
`pos0_min = 0`, `bins = 4`, a single unmasked pixel whose fractional bin
range is `[-4/5, -1/5]` — entirely outside `[0, 4)` — does NOT yield zero
entries: the C `<int>` cast truncates both ends toward zero, so the pixel is
emitted with weight `1.0` into bin `0`. -/
theorem claim1_counterexample :
    get_bin_number (-4/5 : ℚ) 0 1 < 0 ∧ get_bin_number (-1/5 : ℚ) 0 1 < 0 ∧
    calc_lut 1 0 4 [-4/5] [-1/5] (fun _ => false) none = [LutEntry.mk 0 0 1] := by
  have h1 : (⌈-(4/5 : ℚ)⌉ : ℤ) = 0 := by norm_num
  have h2 : (⌈-(1/5 : ℚ)⌉ : ℤ) = 0 := by norm_num
  have hg1 : get_bin_number (-(4/5) : ℚ) 0 1 = -(4/5) := by norm_num [get_bin_number]
  have hg2 : get_bin_number (-(1/5) : ℚ) 0 1 = -(1/5) := by norm_num [get_bin_number]
  have hw : lut_weights 4 (-(4/5) : ℚ) (-(1/5)) = [(0, 1)] := by
    norm_num [lut_weights, ctrunc, clampLo, clampUp, h1, h2]
  have hr1 : List.range 1 = [0] := rfl
  refine ⟨by norm_num [get_bin_number], by norm_num [get_bin_number], ?_⟩
  unfold calc_lut
  simp only [List.length_cons, List.length_nil, hr1,
    List.flatMap_cons, List.flatMap_nil, List.append_nil, Bool.false_eq_true,
    if_false, List.getD, List.getElem?_cons_zero, Option.getD_some]
  norm_num [pos1_reject, hg1, hg2, hw]

/-- C1 (amended): in `HistoBBox1d.calc_lut`, for every unmasked pixel that
passes the secondary filter, (1) if its fractional bin range
`[fbin0_min, fbin0_max]` lies entirely inside `[0, bins)` the weights emitted
for that pixel sum exactly to `1`; (2) the pixel yields zero entries exactly
under the code's truncated-bin test `bin0_max < 0 or bin0_min ≥ bins` — not
for every fractional range outside `[0, bins)`, since the C `<int>` cast
truncates toward zero instead of flooring. -/
theorem claim1_theorem :
    (∀ (delta pos0_min : ℚ) (bins : ℤ) (inf sup : List ℚ) (cmask : ℕ → Bool)
        (p1 : Option (List ℚ × List ℚ × ℚ × ℚ)) (idx : ℕ),
      idx < inf.length → cmask idx = false → pos1_reject p1 idx = false →
      0 ≤ get_bin_number (inf.getD idx 0) pos0_min delta →
      get_bin_number (inf.getD idx 0) pos0_min delta ≤
        get_bin_number (sup.getD idx 0) pos0_min delta →
      get_bin_number (sup.getD idx 0) pos0_min delta < (bins : ℚ) →
      lsum ((calc_lut delta pos0_min bins inf sup cmask p1).filter
        (fun e => e.idx == idx)) = 1) ∧
    (∀ (delta pos0_min : ℚ) (bins : ℤ) (inf sup : List ℚ) (cmask : ℕ → Bool)
        (p1 : Option (List ℚ × List ℚ × ℚ × ℚ)) (idx : ℕ),
      idx < inf.length → cmask idx = false → pos1_reject p1 idx = false →
      (ctrunc (get_bin_number (sup.getD idx 0) pos0_min delta) < 0 ∨
        bins ≤ ctrunc (get_bin_number (inf.getD idx 0) pos0_min delta)) →
      (calc_lut delta pos0_min bins inf sup cmask p1).filter
        (fun e => e.idx == idx) = []) := by
  constructor
  · intro delta pos0_min bins inf sup cmask p1 idx hn hm hr h1 h2 h3
    rw [calc_lut_gate,
      filter_flatMap_pixel inf.length idx _ _ hn (by rw [hm, hr]; rfl),
      lsum_tagged]
    exact lut_weights_sum_inside bins _ _ h1 h2 h3
  · intro delta pos0_min bins inf sup cmask p1 idx hn hm hr hskip
    rw [calc_lut_gate,
      filter_flatMap_pixel inf.length idx _ _ hn (by rw [hm, hr]; rfl),
      lut_weights_skip _ _ _ hskip]
    rfl

/-- Witness for C1 at concrete inputs: a pixel with fractional range
`[1/2, 5/2]` inside `[0, 4)` sums to `1`; a pixel with fractional range
`[-3, -2]` is dropped. -/
theorem claim1_witness :
    lsum ((calc_lut 1 0 4 [1/2] [5/2] (fun _ => false) none).filter
      (fun e => e.idx == 0)) = 1 ∧
    (calc_lut 1 0 4 [-3] [-2] (fun _ => false) none).filter
      (fun e => e.idx == 0) = [] := by
  constructor
  · exact claim1_theorem.1 1 0 4 [1/2] [5/2] (fun _ => false) none 0
      (by norm_num) rfl rfl (by norm_num [get_bin_number])
      (by norm_num [get_bin_number]) (by norm_num [get_bin_number])
  · refine claim1_theorem.2 1 0 4 [-3] [-2] (fun _ => false) none 0
      (by norm_num) rfl rfl (Or.inl ?_)
    have hg : get_bin_number (([-2] : List ℚ).getD 0 0) 0 1 = -2 := by
      norm_num [get_bin_number]
    rw [hg, ctrunc_of_neg (by norm_num),
      show ((-2 : ℚ)) = ((-2 : ℤ) : ℚ) by norm_num, Int.ceil_intCast]
    norm_num

end Claim1

section Claim5

/-- C5, counterexample to the claim as stated: in the no-split path with
`delta = 1`, `pos0_min = 2`, `bins = 4`, a retained pixel at coordinate `3/2`
has `floor((3/2 - 2)/1) = -1`, outside `[0, 4)`, so the claim says it yields
zero entries — but the C `<int>` cast truncates `-1/2` to `0`, and the pixel
is emitted with weight `1.0` into bin `0`. -/
theorem claim5_counterexample :
    ⌊get_bin_number (3/2 : ℚ) 2 1⌋ < 0 ∧
    calc_lut_nosplit 1 2 4 [3/2] (fun _ => false) none = [LutEntry.mk 0 0 1] := by
  have h1 : (⌈-(1/2 : ℚ)⌉ : ℤ) = 0 := by norm_num
  have hg : get_bin_number (3/2 : ℚ) 2 1 = -(1/2) := by norm_num [get_bin_number]
  have hw : nosplit_weights 4 (-(1/2) : ℚ) = [(0, 1)] := by
    norm_num [nosplit_weights, ctrunc, h1]
  have hr1 : List.range 1 = [0] := rfl
  refine ⟨by rw [hg]; norm_num, ?_⟩
  unfold calc_lut_nosplit
  simp only [List.length_cons, List.length_nil, hr1,
    List.flatMap_cons, List.flatMap_nil, List.append_nil, Bool.false_eq_true,
    if_false, List.getD, List.getElem?_cons_zero, Option.getD_some]
  norm_num [pos1_reject, hg, hw]

/-- C5 (amended): in `HistoBBox1d.calc_lut_nosplit`, every unmasked pixel
passing the secondary filter whose `floor((coordinate - pos0_min)/delta)`
falls in `[0, bins)` yields exactly one entry with weight `1.0` in that bin;
a retained pixel yields zero entries exactly under the code's truncated-bin
test `bin0 < 0 or bin0 ≥ bins` (truncation toward zero, not floor). -/
theorem claim5_theorem :
    (∀ (delta pos0_min : ℚ) (bins : ℤ) (cpos0 : List ℚ) (cmask : ℕ → Bool)
        (p1 : Option (List ℚ × List ℚ × ℚ × ℚ)) (idx : ℕ),
      idx < cpos0.length → cmask idx = false → pos1_reject p1 idx = false →
      0 ≤ ⌊get_bin_number (cpos0.getD idx 0) pos0_min delta⌋ →
      ⌊get_bin_number (cpos0.getD idx 0) pos0_min delta⌋ < bins →
      (calc_lut_nosplit delta pos0_min bins cpos0 cmask p1).filter
        (fun e => e.idx == idx) =
        [LutEntry.mk ⌊get_bin_number (cpos0.getD idx 0) pos0_min delta⌋ idx 1]) ∧
    (∀ (delta pos0_min : ℚ) (bins : ℤ) (cpos0 : List ℚ) (cmask : ℕ → Bool)
        (p1 : Option (List ℚ × List ℚ × ℚ × ℚ)) (idx : ℕ),
      idx < cpos0.length → cmask idx = false → pos1_reject p1 idx = false →
      (ctrunc (get_bin_number (cpos0.getD idx 0) pos0_min delta) < 0 ∨
        bins ≤ ctrunc (get_bin_number (cpos0.getD idx 0) pos0_min delta)) →
      (calc_lut_nosplit delta pos0_min bins cpos0 cmask p1).filter
        (fun e => e.idx == idx) = []) := by
  constructor
  · intro delta pos0_min bins cpos0 cmask p1 idx hn hm hr h0 h1
    rw [calc_lut_nosplit_gate,
      filter_flatMap_pixel cpos0.length idx _ _ hn (by rw [hm, hr]; rfl),
      nosplit_weights_in bins _ h0 h1]
    rfl
  · intro delta pos0_min bins cpos0 cmask p1 idx hn hm hr hskip
    rw [calc_lut_nosplit_gate,
      filter_flatMap_pixel cpos0.length idx _ _ hn (by rw [hm, hr]; rfl),
      nosplit_weights_skip bins _ hskip]
    rfl

/-- Witness for C5 at concrete inputs: coordinate `5/2` with `pos0_min = 0`,
`delta = 1`, `bins = 4` gives one entry of weight `1` in bin `2`; coordinate
`7` is dropped. -/
theorem claim5_witness :
    (calc_lut_nosplit 1 0 4 [5/2] (fun _ => false) none).filter
      (fun e => e.idx == 0) = [LutEntry.mk 2 0 1] ∧
    (calc_lut_nosplit 1 0 4 [7] (fun _ => false) none).filter
      (fun e => e.idx == 0) = [] := by
  constructor
  · have h := claim5_theorem.1 1 0 4 [5/2] (fun _ => false) none 0
      (by norm_num) rfl rfl (by norm_num [get_bin_number])
      (by norm_num [get_bin_number])
    rw [h]
    norm_num [get_bin_number]
  · exact claim5_theorem.2 1 0 4 [7] (fun _ => false) none 0
      (by norm_num) rfl rfl
      (Or.inr (by norm_num [get_bin_number, ctrunc]))

end Claim5

end SplitBBoxLUT

namespace ReductionKernel

/-- C8: the claim is the evident intent (a two-stage min/max reduction
returning `min = 0`, `max = N-1` on the ramp `0..N-1`), but the code drops
data: `reduce1` stops its halving loop at TWO active lanes and then writes
only `scratch[0]` (a single float2) per group, losing the odd-lane partial
`scratch[1]`.  On the ramp `0..3` with workgroup size 2 and 2 groups the
pipeline returns `(0, 2)` instead of `(0, 3)`. -/
theorem claim8_theorem :
    reduce_pipeline (rampBuffer 4) 2 2 = some (0, 2) ∧
    reduce_pipeline (rampBuffer 4) 2 2 ≠ some (0, 3) := by
  constructor
  · decide
  · decide

end ReductionKernel

namespace SplitBBoxLUT

section Claim2

lemma clampUp_floor {bins : ℤ} {q : ℚ} (h0 : 0 ≤ q) (h : q < bins) :
    clampUp bins (ctrunc q) = ⌊q⌋ := by
  rw [ctrunc_of_nonneg h0]
  unfold clampUp
  exact if_neg (not_le.mpr (floor_lt_of_lt_intCast h))

lemma clampLo_floor {q : ℚ} (h0 : 0 ≤ q) : clampLo (ctrunc q) = ⌊q⌋ := by
  rw [ctrunc_of_nonneg h0]
  unfold clampLo
  exact if_neg (not_lt.mpr (Int.floor_nonneg.mpr h0))

lemma wsum_flatMap {α : Type} (l : List α) (f : α → List (ℤ × ℚ)) :
    wsum (l.flatMap f) = (l.map (fun a => wsum (f a))).sum := by
  induction l with
  | nil => rfl
  | cons a t ih => simp [List.flatMap_cons, wsum_append, ih]

lemma sum_map_constQ {α : Type} (l : List α) (c : ℚ) :
    (l.map (fun _ => c)).sum = (l.length : ℚ) * c := by
  induction l with
  | nil => simp
  | cons a t ih =>
    simp [ih]
    ring

lemma wsum_map_pair (a b : ℤ) (g : ℤ → ℤ) (c : ℚ) :
    wsum ((intRange a b).map (fun i => (g i, c))) = ((b - a).toNat : ℚ) * c := by
  unfold wsum
  rw [List.map_map]
  have h1 : (Prod.snd ∘ fun i : ℤ => (g i, c)) = Function.const ℤ c := rfl
  rw [h1, List.map_const, List.sum_replicate, intRange_length, nsmul_eq_mul]

/-- The spread/spread branch of `HistoBBox2d.calc_lut` in explicit form: when
the per-axis fractional ranges lie inside `[0, bins0)` × `[0, bins1)` and
both axes spread over several bins, the four corner bins get
`inverse_area * (axis-0 edge fraction) * (axis-1 edge fraction)`, border bins
get `inverse_area * (single-axis edge fraction)`, interior bins get
`inverse_area`, all at combined index `bin0 * bins1 + bin1`. -/
lemma lut_weights2d_spread (bins0 bins1 : ℤ) (f0min f0max f1min f1max : ℚ)
    (h0a : 0 ≤ f0min) (h0b : f0min ≤ f0max) (h0c : f0max < (bins0 : ℚ))
    (h1a : 0 ≤ f1min) (h1b : f1min ≤ f1max) (h1c : f1max < (bins1 : ℚ))
    (hs0 : ⌊f0min⌋ < ⌊f0max⌋) (hs1 : ⌊f1min⌋ < ⌊f1max⌋) :
    lut_weights2d bins0 bins1 f0min f0max f1min f1max =
      (⌊f0min⌋ * bins1 + ⌊f1min⌋,
        1 / ((f0max - f0min) * (f1max - f1min)) *
          (((⌊f0min⌋ + 1 : ℤ) : ℚ) - f0min) * (((⌊f1min⌋ + 1 : ℤ) : ℚ) - f1min)) ::
      (⌊f0min⌋ * bins1 + ⌊f1max⌋,
        1 / ((f0max - f0min) * (f1max - f1min)) *
          (((⌊f0min⌋ + 1 : ℤ) : ℚ) - f0min) * (f1max - ((⌊f1max⌋ : ℤ) : ℚ))) ::
      (⌊f0max⌋ * bins1 + ⌊f1min⌋,
        1 / ((f0max - f0min) * (f1max - f1min)) *
          (f0max - ((⌊f0max⌋ : ℤ) : ℚ)) * (((⌊f1min⌋ + 1 : ℤ) : ℚ) - f1min)) ::
      (⌊f0max⌋ * bins1 + ⌊f1max⌋,
        1 / ((f0max - f0min) * (f1max - f1min)) *
          (f0max - ((⌊f0max⌋ : ℤ) : ℚ)) * (f1max - ((⌊f1max⌋ : ℤ) : ℚ))) ::
      ((intRange (⌊f0min⌋ + 1) ⌊f0max⌋).flatMap (fun i =>
          (i * bins1 + ⌊f1min⌋,
            1 / ((f0max - f0min) * (f1max - f1min)) *
              (((⌊f1min⌋ + 1 : ℤ) : ℚ) - f1min)) ::
            (intRange (⌊f1min⌋ + 1) ⌊f1max⌋).map
              (fun j => (i * bins1 + j,
                1 / ((f0max - f0min) * (f1max - f1min)))) ++
            [(i * bins1 + ⌊f1max⌋,
              1 / ((f0max - f0min) * (f1max - f1min)) *
                (f1max - ((⌊f1max⌋ : ℤ) : ℚ)))]) ++
        (intRange (⌊f1min⌋ + 1) ⌊f1max⌋).flatMap (fun j =>
          [(⌊f0min⌋ * bins1 + j,
            1 / ((f0max - f0min) * (f1max - f1min)) *
              (((⌊f0min⌋ + 1 : ℤ) : ℚ) - f0min)),
           (⌊f0max⌋ * bins1 + j,
            1 / ((f0max - f0min) * (f1max - f1min)) *
              (f0max - ((⌊f0max⌋ : ℤ) : ℚ)))])) := by
  have h0max : 0 ≤ f0max := h0a.trans h0b
  have h1max : 0 ≤ f1max := h1a.trans h1b
  unfold lut_weights2d
  rw [ctrunc_of_nonneg h0a, ctrunc_of_nonneg h0max,
    ctrunc_of_nonneg h1a, ctrunc_of_nonneg h1max]
  rw [if_neg (by
        push_neg
        exact ⟨Int.floor_nonneg.mpr h0max,
          ⟨floor_lt_of_lt_intCast (h0b.trans_lt h0c),
           ⟨Int.floor_nonneg.mpr h1max,
            floor_lt_of_lt_intCast (h1b.trans_lt h1c)⟩⟩⟩)]
  have hcu0 : clampUp bins0 ⌊f0max⌋ = ⌊f0max⌋ := by
    unfold clampUp
    exact if_neg (not_le.mpr (floor_lt_of_lt_intCast h0c))
  have hcl0 : clampLo ⌊f0min⌋ = ⌊f0min⌋ := by
    unfold clampLo
    exact if_neg (not_lt.mpr (Int.floor_nonneg.mpr h0a))
  have hcu1 : clampUp bins1 ⌊f1max⌋ = ⌊f1max⌋ := by
    unfold clampUp
    exact if_neg (not_le.mpr (floor_lt_of_lt_intCast h1c))
  have hcl1 : clampLo ⌊f1min⌋ = ⌊f1min⌋ := by
    unfold clampLo
    exact if_neg (not_lt.mpr (Int.floor_nonneg.mpr h1a))
  simp only [hcu0, hcl0, hcu1, hcl1]
  rw [if_neg (ne_of_lt hs0), if_neg (ne_of_lt hs1)]

end Claim2

end SplitBBoxLUT

namespace SplitBBoxLUT

section Claim2Sum

lemma wsum_singleton (b : ℤ) (w : ℚ) : wsum [(b, w)] = w := by
  simp [wsum]

/-- Partition of unity for the 2D spread/spread emission: for an unclipped
pixel spreading over several bins in both axes the weights sum to `1`. -/
lemma lut_weights2d_spread_sum (bins0 bins1 : ℤ) (f0min f0max f1min f1max : ℚ)
    (h0a : 0 ≤ f0min) (h0b : f0min ≤ f0max) (h0c : f0max < (bins0 : ℚ))
    (h1a : 0 ≤ f1min) (h1b : f1min ≤ f1max) (h1c : f1max < (bins1 : ℚ))
    (hs0 : ⌊f0min⌋ < ⌊f0max⌋) (hs1 : ⌊f1min⌋ < ⌊f1max⌋) :
    wsum (lut_weights2d bins0 bins1 f0min f0max f1min f1max) = 1 := by
  rw [lut_weights2d_spread bins0 bins1 f0min f0max f1min f1max
    h0a h0b h0c h1a h1b h1c hs0 hs1]
  simp only [wsum_cons, wsum_append, wsum_flatMap, wsum_map_pair,
    wsum_singleton, sum_map_constQ, intRange_length, wsum_nil]
  have hn0 : (((⌊f0max⌋ - (⌊f0min⌋ + 1)).toNat : ℕ) : ℚ) =
      (⌊f0max⌋ : ℚ) - (⌊f0min⌋ : ℚ) - 1 := by
    have h : ((⌊f0max⌋ - (⌊f0min⌋ + 1)).toNat : ℤ) = ⌊f0max⌋ - ⌊f0min⌋ - 1 := by
      omega
    exact_mod_cast congrArg (fun z : ℤ => (z : ℚ)) h
  have hn1 : (((⌊f1max⌋ - (⌊f1min⌋ + 1)).toNat : ℕ) : ℚ) =
      (⌊f1max⌋ : ℚ) - (⌊f1min⌋ : ℚ) - 1 := by
    have h : ((⌊f1max⌋ - (⌊f1min⌋ + 1)).toNat : ℤ) = ⌊f1max⌋ - ⌊f1min⌋ - 1 := by
      omega
    exact_mod_cast congrArg (fun z : ℤ => (z : ℚ)) h
  rw [hn0, hn1]
  have hspan0 : f0max - f0min ≠ 0 := ne_of_gt (span_pos_of_floor_lt h0b hs0)
  have hspan1 : f1max - f1min ≠ 0 := ne_of_gt (span_pos_of_floor_lt h1b hs1)
  have hfr0 : Int.fract f0max = f0max - ⌊f0max⌋ := rfl
  have hfr1 : Int.fract f1max = f1max - ⌊f1max⌋ := rfl
  push_cast
  field_simp
  ring_nf
  rw [hfr0, hfr1]
  ring

end Claim2Sum

end SplitBBoxLUT

namespace SplitBBoxLUT

section Claim2Main

/-- C2: in `HistoBBox2d.calc_lut`, for an unmasked pixel spread over more
than one bin in both axes whose fractional ranges lie inside
`[0, bins0) × [0, bins1)`: the four corner bins receive
`inverse_area * (axis-0 edge fraction) * (axis-1 edge fraction)`, border bins
receive `inverse_area * (single-axis edge fraction)`, fully interior bins
receive exactly `inverse_area = 1/((fbin0_max-fbin0_min)*(fbin1_max-fbin1_min))`,
all contributions are placed at combined index `bin0 * bins1 + bin1`, and the
weights sum to `1`. -/
theorem claim2_theorem
    (delta0 pos0_min delta1 pos1_min : ℚ) (bins0 bins1 : ℤ)
    (inf0 sup0 inf1 sup1 : List ℚ) (cmask : ℕ → Bool) (idx : ℕ)
    (hn : idx < inf0.length) (hm : cmask idx = false)
    (h0a : 0 ≤ get_bin_number (inf0.getD idx 0) pos0_min delta0)
    (h0b : get_bin_number (inf0.getD idx 0) pos0_min delta0 ≤
      get_bin_number (sup0.getD idx 0) pos0_min delta0)
    (h0c : get_bin_number (sup0.getD idx 0) pos0_min delta0 < (bins0 : ℚ))
    (h1a : 0 ≤ get_bin_number (inf1.getD idx 0) pos1_min delta1)
    (h1b : get_bin_number (inf1.getD idx 0) pos1_min delta1 ≤
      get_bin_number (sup1.getD idx 0) pos1_min delta1)
    (h1c : get_bin_number (sup1.getD idx 0) pos1_min delta1 < (bins1 : ℚ))
    (hs0 : ⌊get_bin_number (inf0.getD idx 0) pos0_min delta0⌋ <
      ⌊get_bin_number (sup0.getD idx 0) pos0_min delta0⌋)
    (hs1 : ⌊get_bin_number (inf1.getD idx 0) pos1_min delta1⌋ <
      ⌊get_bin_number (sup1.getD idx 0) pos1_min delta1⌋) :
    ((calc_lut2d delta0 pos0_min delta1 pos1_min bins0 bins1
        inf0 sup0 inf1 sup1 cmask).filter (fun e => e.idx == idx) =
      (lut_weights2d bins0 bins1
        (get_bin_number (inf0.getD idx 0) pos0_min delta0)
        (get_bin_number (sup0.getD idx 0) pos0_min delta0)
        (get_bin_number (inf1.getD idx 0) pos1_min delta1)
        (get_bin_number (sup1.getD idx 0) pos1_min delta1)).map
          (fun bw => LutEntry.mk bw.1 idx bw.2)) ∧
    (lut_weights2d bins0 bins1
        (get_bin_number (inf0.getD idx 0) pos0_min delta0)
        (get_bin_number (sup0.getD idx 0) pos0_min delta0)
        (get_bin_number (inf1.getD idx 0) pos1_min delta1)
        (get_bin_number (sup1.getD idx 0) pos1_min delta1) =
      (let f0min := get_bin_number (inf0.getD idx 0) pos0_min delta0
       let f0max := get_bin_number (sup0.getD idx 0) pos0_min delta0
       let f1min := get_bin_number (inf1.getD idx 0) pos1_min delta1
       let f1max := get_bin_number (sup1.getD idx 0) pos1_min delta1
       (⌊f0min⌋ * bins1 + ⌊f1min⌋,
         1 / ((f0max - f0min) * (f1max - f1min)) *
           (((⌊f0min⌋ + 1 : ℤ) : ℚ) - f0min) * (((⌊f1min⌋ + 1 : ℤ) : ℚ) - f1min)) ::
       (⌊f0min⌋ * bins1 + ⌊f1max⌋,
         1 / ((f0max - f0min) * (f1max - f1min)) *
           (((⌊f0min⌋ + 1 : ℤ) : ℚ) - f0min) * (f1max - ((⌊f1max⌋ : ℤ) : ℚ))) ::
       (⌊f0max⌋ * bins1 + ⌊f1min⌋,
         1 / ((f0max - f0min) * (f1max - f1min)) *
           (f0max - ((⌊f0max⌋ : ℤ) : ℚ)) * (((⌊f1min⌋ + 1 : ℤ) : ℚ) - f1min)) ::
       (⌊f0max⌋ * bins1 + ⌊f1max⌋,
         1 / ((f0max - f0min) * (f1max - f1min)) *
           (f0max - ((⌊f0max⌋ : ℤ) : ℚ)) * (f1max - ((⌊f1max⌋ : ℤ) : ℚ))) ::
       ((intRange (⌊f0min⌋ + 1) ⌊f0max⌋).flatMap (fun i =>
           (i * bins1 + ⌊f1min⌋,
             1 / ((f0max - f0min) * (f1max - f1min)) *
               (((⌊f1min⌋ + 1 : ℤ) : ℚ) - f1min)) ::
             (intRange (⌊f1min⌋ + 1) ⌊f1max⌋).map
               (fun j => (i * bins1 + j,
                 1 / ((f0max - f0min) * (f1max - f1min)))) ++
             [(i * bins1 + ⌊f1max⌋,
               1 / ((f0max - f0min) * (f1max - f1min)) *
                 (f1max - ((⌊f1max⌋ : ℤ) : ℚ)))]) ++
         (intRange (⌊f1min⌋ + 1) ⌊f1max⌋).flatMap (fun j =>
           [(⌊f0min⌋ * bins1 + j,
             1 / ((f0max - f0min) * (f1max - f1min)) *
               (((⌊f0min⌋ + 1 : ℤ) : ℚ) - f0min)),
            (⌊f0max⌋ * bins1 + j,
             1 / ((f0max - f0min) * (f1max - f1min)) *
               (f0max - ((⌊f0max⌋ : ℤ) : ℚ)))])))) ∧
    lsum ((calc_lut2d delta0 pos0_min delta1 pos1_min bins0 bins1
        inf0 sup0 inf1 sup1 cmask).filter (fun e => e.idx == idx)) = 1 := by
  have hslice : (calc_lut2d delta0 pos0_min delta1 pos1_min bins0 bins1
      inf0 sup0 inf1 sup1 cmask).filter (fun e => e.idx == idx) =
      (lut_weights2d bins0 bins1
        (get_bin_number (inf0.getD idx 0) pos0_min delta0)
        (get_bin_number (sup0.getD idx 0) pos0_min delta0)
        (get_bin_number (inf1.getD idx 0) pos1_min delta1)
        (get_bin_number (sup1.getD idx 0) pos1_min delta1)).map
          (fun bw => LutEntry.mk bw.1 idx bw.2) := by
    unfold calc_lut2d
    exact filter_flatMap_pixel inf0.length idx cmask _ hn hm
  refine ⟨hslice,
    lut_weights2d_spread bins0 bins1 _ _ _ _ h0a h0b h0c h1a h1b h1c hs0 hs1, ?_⟩
  rw [hslice, lsum_tagged]
  exact lut_weights2d_spread_sum bins0 bins1 _ _ _ _
    h0a h0b h0c h1a h1b h1c hs0 hs1

end Claim2Main

end SplitBBoxLUT

namespace SplitBBoxLUT

/-- Witness for C2 at a concrete input: one unmasked pixel with fractional
ranges `[1/2, 5/2] × [1/3, 7/3]` over a `4 × 5` grid; its emitted weights
sum to `1`. -/
theorem claim2_witness :
    lsum ((calc_lut2d 1 0 1 0 4 5 [1/2] [5/2] [1/3] [7/3]
      (fun _ => false)).filter (fun e => e.idx == 0)) = 1 :=
  (claim2_theorem 1 0 1 0 4 5 [1/2] [5/2] [1/3] [7/3] (fun _ => false) 0
    (by norm_num) rfl
    (by norm_num [get_bin_number]) (by norm_num [get_bin_number])
    (by norm_num [get_bin_number]) (by norm_num [get_bin_number])
    (by norm_num [get_bin_number]) (by norm_num [get_bin_number])
    (by norm_num [get_bin_number]) (by norm_num [get_bin_number])).2.2

end SplitBBoxLUT

namespace SplitBBoxLUT

section Claim7

/-- The three weight bounds of a 1D-style split branch, packaged per axis:
left fraction, right fraction and (when an interior bin exists) the interior
weight all lie in `[0, 1]`. -/
lemma axis_bounds_pack (bins : ℤ) (fmin fmax : ℚ)
    (hb : 1 ≤ bins) (hle : fmin ≤ fmax)
    (hs1 : ¬ ctrunc fmax < 0) (hs2 : ¬ bins ≤ ctrunc fmin)
    (hne : clampLo (ctrunc fmin) ≠ clampUp bins (ctrunc fmax)) :
    (0 ≤ 1 / (fmax - fmin) * (((clampLo (ctrunc fmin) + 1 : ℤ) : ℚ) - fmin) ∧
      1 / (fmax - fmin) * (((clampLo (ctrunc fmin) + 1 : ℤ) : ℚ) - fmin) ≤ 1) ∧
    (0 ≤ 1 / (fmax - fmin) * (fmax - ((clampUp bins (ctrunc fmax) : ℤ) : ℚ)) ∧
      1 / (fmax - fmin) * (fmax - ((clampUp bins (ctrunc fmax) : ℤ) : ℚ)) ≤ 1) ∧
    (clampLo (ctrunc fmin) + 1 < clampUp bins (ctrunc fmax) →
      (1 : ℚ) ≤ fmax - fmin) ∧
    0 < fmax - fmin := by
  obtain ⟨hlt, hA, hB⟩ := axis_split_facts bins fmin fmax hb hle hs1 hs2 hne
  set bmin := clampLo (ctrunc fmin) with hbmin
  set bmax := clampUp bins (ctrunc fmax) with hbmax
  have hb1 : (bmin : ℚ) + 1 ≤ (bmax : ℚ) := by exact_mod_cast hlt
  have hdl : 0 < (bmin : ℚ) + 1 - fmin := by linarith
  have hdr : 0 ≤ fmax - (bmax : ℚ) := by linarith
  have hs : 0 < fmax - fmin := by linarith
  have hinv : (0 : ℚ) ≤ 1 / (fmax - fmin) := le_of_lt (one_div_pos.mpr hs)
  refine ⟨⟨?_, ?_⟩, ⟨?_, ?_⟩, ?_, hs⟩
  · push_cast
    exact mul_nonneg hinv hdl.le
  · push_cast
    rw [show (1 / (fmax - fmin) * ((bmin : ℚ) + 1 - fmin)) =
        ((bmin : ℚ) + 1 - fmin) / (fmax - fmin) by ring, div_le_one hs]
    linarith
  · exact mul_nonneg hinv hdr
  · rw [show (1 / (fmax - fmin) * (fmax - (bmax : ℚ))) =
        (fmax - (bmax : ℚ)) / (fmax - fmin) by ring, div_le_one hs]
    linarith
  · intro hint
    have hgap : (bmin : ℚ) + 2 ≤ (bmax : ℚ) := by
      have h2' : bmin + 2 ≤ bmax := by omega
      exact_mod_cast h2'
    linarith

/-- All weights emitted by the 2D split path lie in `[0, 1]` (given at least
one output bin per axis and ordered fractional ranges). -/
lemma lut_weights2d_mem_bounds (bins0 bins1 : ℤ) (f0min f0max f1min f1max : ℚ)
    (hb0 : 1 ≤ bins0) (hb1 : 1 ≤ bins1)
    (h0 : f0min ≤ f0max) (h1 : f1min ≤ f1max) :
    ∀ bw ∈ lut_weights2d bins0 bins1 f0min f0max f1min f1max,
      0 ≤ bw.2 ∧ bw.2 ≤ 1 := by
  intro bw hmem
  unfold lut_weights2d at hmem
  by_cases hskip : ctrunc f0max < 0 ∨ bins0 ≤ ctrunc f0min ∨
      ctrunc f1max < 0 ∨ bins1 ≤ ctrunc f1min
  · rw [if_pos hskip] at hmem
    simp at hmem
  · rw [if_neg hskip] at hmem
    have hsk00 : ¬ ctrunc f0max < 0 := fun h => hskip (Or.inl h)
    have hsk01 : ¬ bins0 ≤ ctrunc f0min := fun h => hskip (Or.inr (Or.inl h))
    have hsk10 : ¬ ctrunc f1max < 0 :=
      fun h => hskip (Or.inr (Or.inr (Or.inl h)))
    have hsk11 : ¬ bins1 ≤ ctrunc f1min :=
      fun h => hskip (Or.inr (Or.inr (Or.inr h)))
    dsimp only at hmem
    by_cases he0 : clampLo (ctrunc f0min) = clampUp bins0 (ctrunc f0max)
    · rw [if_pos he0] at hmem
      by_cases he1 : clampLo (ctrunc f1min) = clampUp bins1 (ctrunc f1max)
      · rw [if_pos he1] at hmem
        simp only [List.mem_singleton] at hmem
        rw [hmem]
        norm_num
      · rw [if_neg he1] at hmem
        obtain ⟨hdl, hdr, hint, hs⟩ :=
          axis_bounds_pack bins1 f1min f1max hb1 h1 hsk10 hsk11 he1
        simp only [List.mem_cons, List.mem_map] at hmem
        rcases hmem with h | h | ⟨j, hj, h⟩
        · rw [h]; exact hdl
        · rw [h]; exact hdr
        · rw [← h]
          have hj' := mem_intRange.mp hj
          have hone := hint (by omega)
          have hspos : (0:ℚ) < f1max - f1min := hs
          constructor
          · exact le_of_lt (one_div_pos.mpr hspos)
          · rw [div_le_one hspos]; linarith
    · rw [if_neg he0] at hmem
      obtain ⟨hdl0, hdr0, hint0, hs0⟩ :=
        axis_bounds_pack bins0 f0min f0max hb0 h0 hsk00 hsk01 he0
      by_cases he1 : clampLo (ctrunc f1min) = clampUp bins1 (ctrunc f1max)
      · rw [if_pos he1] at hmem
        simp only [List.mem_cons, List.mem_map] at hmem
        rcases hmem with h | h | ⟨i, hi, h⟩
        · rw [h]; exact hdl0
        · rw [h]; exact hdr0
        · rw [← h]
          have hi' := mem_intRange.mp hi
          have hone := hint0 (by omega)
          constructor
          · exact le_of_lt (one_div_pos.mpr hs0)
          · rw [div_le_one hs0]; linarith
      · rw [if_neg he1] at hmem
        obtain ⟨hdl1, hdr1, hint1, hs1p⟩ :=
          axis_bounds_pack bins1 f1min f1max hb1 h1 hsk10 hsk11 he1
        have h00 : f0max - f0min ≠ 0 := ne_of_gt hs0
        have h11 : f1max - f1min ≠ 0 := ne_of_gt hs1p
        have hfin : ∀ (x y : ℚ),
            0 ≤ 1 / (f0max - f0min) * x → 1 / (f0max - f0min) * x ≤ 1 →
            0 ≤ 1 / (f1max - f1min) * y → 1 / (f1max - f1min) * y ≤ 1 →
            0 ≤ 1 / ((f0max - f0min) * (f1max - f1min)) * x * y ∧
              1 / ((f0max - f0min) * (f1max - f1min)) * x * y ≤ 1 := by
          intro x y hx0 hx1 hy0 hy1
          have heq : 1 / ((f0max - f0min) * (f1max - f1min)) * x * y =
              (1 / (f0max - f0min) * x) * (1 / (f1max - f1min) * y) := by
            field_simp
          rw [heq]
          exact ⟨mul_nonneg hx0 hy0, mul_le_one₀ hx1 hy0 hy1⟩
        have hone0 : ∀ hgap : clampLo (ctrunc f0min) + 1 < clampUp bins0 (ctrunc f0max),
            0 ≤ 1 / (f0max - f0min) * 1 ∧ 1 / (f0max - f0min) * 1 ≤ 1 := by
          intro hgap
          have hone := hint0 hgap
          rw [mul_one]
          exact ⟨le_of_lt (one_div_pos.mpr hs0), by rw [div_le_one hs0]; linarith⟩
        have hone1 : ∀ hgap : clampLo (ctrunc f1min) + 1 < clampUp bins1 (ctrunc f1max),
            0 ≤ 1 / (f1max - f1min) * 1 ∧ 1 / (f1max - f1min) * 1 ≤ 1 := by
          intro hgap
          have hone := hint1 hgap
          rw [mul_one]
          exact ⟨le_of_lt (one_div_pos.mpr hs1p), by rw [div_le_one hs1p]; linarith⟩
        simp only [List.mem_cons, List.mem_append, List.mem_flatMap,
          List.mem_map, List.mem_singleton] at hmem
        rcases hmem with h | h | h | h | ⟨i, hi, hrow⟩ | ⟨j, hj, hcol⟩
        · rw [h]
          exact hfin _ _ hdl0.1 hdl0.2 hdl1.1 hdl1.2
        · rw [h]
          exact hfin _ _ hdl0.1 hdl0.2 hdr1.1 hdr1.2
        · rw [h]
          exact hfin _ _ hdr0.1 hdr0.2 hdl1.1 hdl1.2
        · rw [h]
          exact hfin _ _ hdr0.1 hdr0.2 hdr1.1 hdr1.2
        · have hi' := mem_intRange.mp hi
          have hx := hone0 (by omega)
          rcases hrow with (h | ⟨j, hj, h⟩) | h | habs
          · rw [h]
            have hw := hfin 1 _ hx.1 hx.2 hdl1.1 hdl1.2
            rw [show 1 / ((f0max - f0min) * (f1max - f1min)) * 1 *
              (((clampLo (ctrunc f1min) + 1 : ℤ) : ℚ) - f1min) =
              1 / ((f0max - f0min) * (f1max - f1min)) *
              (((clampLo (ctrunc f1min) + 1 : ℤ) : ℚ) - f1min) from by
                ring] at hw
            exact hw
          · have hj' := mem_intRange.mp hj
            have hy := hone1 (by omega)
            rw [← h]
            have hw := hfin 1 1 hx.1 hx.2 hy.1 hy.2
            rw [mul_one, mul_one] at hw
            exact hw
          · rw [h]
            have hw := hfin 1 _ hx.1 hx.2 hdr1.1 hdr1.2
            rw [show 1 / ((f0max - f0min) * (f1max - f1min)) * 1 *
              (f1max - ((clampUp bins1 (ctrunc f1max) : ℤ) : ℚ)) =
              1 / ((f0max - f0min) * (f1max - f1min)) *
              (f1max - ((clampUp bins1 (ctrunc f1max) : ℤ) : ℚ)) from by
                ring] at hw
            exact hw
          · simp at habs
        · have hj' := mem_intRange.mp hj
          have hy := hone1 (by omega)
          rcases hcol with h | h | habs
          · rw [h]
            have hw := hfin _ 1 hdl0.1 hdl0.2 hy.1 hy.2
            rw [mul_one] at hw
            exact hw
          · rw [h]
            have hw := hfin _ 1 hdr0.1 hdr0.2 hy.1 hy.2
            rw [mul_one] at hw
            exact hw
          · simp at habs

end Claim7

end SplitBBoxLUT

namespace SplitBBoxLUT

section Claim7Main

/-- Weights emitted by the no-split path are exactly `1`. -/
lemma nosplit_weights_eq_one (bins : ℤ) (fbin : ℚ) :
    ∀ bw ∈ nosplit_weights bins fbin, bw.2 = 1 := by
  intro bw hmem
  unfold nosplit_weights at hmem
  by_cases h : ctrunc fbin < 0 ∨ bins ≤ ctrunc fbin
  · rw [if_pos h] at hmem
    simp at hmem
  · rw [if_neg h] at hmem
    simp only [List.mem_singleton] at hmem
    rw [hmem]

/-- C7, counterexample to the claim as stated: with `bins = 4` and fractional
bin range `[1/2, 2]` — the upper pixel boundary exactly on the bin edge `2`,
so `fbin0_max - bin0_max = 0` — `calc_lut` inserts the entry `(2, 0)` with
weight exactly `0`, contradicting "weight strictly greater than 0" and "no
entry with weight exactly 0 is ever inserted". -/
theorem claim7_counterexample :
    lut_weights 4 (1/2) 2 = [(0, 1/3), (2, 0), (1, 2/3)] ∧
    ((2 : ℤ), (0 : ℚ)) ∈ lut_weights 4 (1/2) 2 := by
  have hw : lut_weights 4 (1/2) 2 = [(0, 1/3), (2, 0), (1, 2/3)] := by
    norm_num [lut_weights, ctrunc, clampLo, clampUp, intRange, List.range_succ]
  refine ⟨hw, ?_⟩
  rw [hw]
  simp

/-- C7 (amended): every LUT entry emitted by the builders (1D split, 1D
no-split, 2D split) has weight in the closed interval `[0, 1]` — given at
least one output bin per axis and ordered per-pixel fractional ranges — and
the no-split weights are exactly `1`.  An entry with weight exactly `0` CAN
be inserted, namely when a pixel boundary falls exactly on a bin edge (the
edge fraction `fbin0_max - bin0_max` vanishes), so `(0, 1]` must be weakened
to `[0, 1]`. -/
theorem claim7_theorem :
    (∀ (bins : ℤ) (fmin fmax : ℚ), 1 ≤ bins → fmin ≤ fmax →
      ∀ bw ∈ lut_weights bins fmin fmax, 0 ≤ bw.2 ∧ bw.2 ≤ 1) ∧
    (∀ (bins : ℤ) (fbin : ℚ), ∀ bw ∈ nosplit_weights bins fbin, bw.2 = 1) ∧
    (∀ (bins0 bins1 : ℤ) (f0min f0max f1min f1max : ℚ),
      1 ≤ bins0 → 1 ≤ bins1 → f0min ≤ f0max → f1min ≤ f1max →
      ∀ bw ∈ lut_weights2d bins0 bins1 f0min f0max f1min f1max,
        0 ≤ bw.2 ∧ bw.2 ≤ 1) :=
  ⟨lut_weights_mem_bounds, nosplit_weights_eq_one,
   fun bins0 bins1 f0min f0max f1min f1max hb0 hb1 h0 h1 =>
     lut_weights2d_mem_bounds bins0 bins1 f0min f0max f1min f1max hb0 hb1 h0 h1⟩

/-- Witness for C7 at concrete inputs: the left-fraction entry `(0, 1/4)` of
the pixel with fractional range `[1/2, 5/2]` over 4 bins has weight in
`[0, 1]`; the unique no-split entry for `fbin0 = 3/2` has weight `1`. -/
theorem claim7_witness :
    (0 ≤ (((0 : ℤ), (1/4 : ℚ))).2 ∧ (((0 : ℤ), (1/4 : ℚ))).2 ≤ 1) ∧
    (((1 : ℤ), (1 : ℚ))).2 = 1 := by
  constructor
  · apply claim7_theorem.1 4 (1/2) (5/2) (by norm_num) (by norm_num)
    have hw : lut_weights 4 (1/2) (5/2) = [(0, 1/4), (2, 1/4), (1, 1/2)] := by
      norm_num [lut_weights, ctrunc, clampLo, clampUp, intRange, List.range_succ]
    rw [hw]
    simp
  · apply claim7_theorem.2.1 4 (3/2)
    have hw : nosplit_weights 4 (3/2) = [(1, 1)] := by
      norm_num [nosplit_weights, ctrunc]
    rw [hw]
    simp

end Claim7Main

end SplitBBoxLUT

namespace SplitBBoxLUT

section Claim3Claim4Support

lemma foldl_if_filter {α β : Type} (p : β → Bool) (g : α → β → α)
    (init : α) (l : List β) :
    l.foldl (fun acc x => if p x then acc else g acc x) init =
      (l.filter (fun x => !p x)).foldl g init := by
  induction l generalizing init with
  | nil => rfl
  | cons a t ih =>
    by_cases h : p a
    · simp only [List.foldl_cons, List.filter_cons, h, if_pos, Bool.not_true,
        Bool.false_eq_true, if_false]
      exact ih init
    · simp only [List.foldl_cons, List.filter_cons, h, Bool.false_eq_true,
        if_false, Bool.not_false, if_true]
      exact ih (g init a)

/-- The running min/max scan of `calc_boundaries` equals the same fold taken
over the unmasked indices only (seeded as the code seeds it). -/
lemma calc_boundaries_scan_filter (cmask : ℕ → Bool) (lows highs : List ℚ)
    (seed : ℚ × ℚ) :
    calc_boundaries_scan cmask lows highs seed =
      ((List.range lows.length).filter (fun i => !cmask i)).foldl
        (fun acc i => (min acc.1 (lows.getD i 0), max acc.2 (highs.getD i 0)))
        seed := by
  unfold calc_boundaries_scan
  exact foldl_if_filter cmask _ seed _

lemma mem_gate_flatMap_unmasked {gate : ℕ → Bool} {w : ℕ → List (ℤ × ℚ)}
    {n : ℕ} :
    ∀ e ∈ (List.range n).flatMap (fun j =>
        if gate j then [] else (w j).map (fun bw => LutEntry.mk bw.1 j bw.2)),
      gate e.idx = false := by
  intro e he
  simp only [List.mem_flatMap, List.mem_range] at he
  obtain ⟨j, _, he⟩ := he
  by_cases h : gate j
  · rw [if_pos h] at he
    simp at he
  · rw [if_neg h] at he
    simp only [List.mem_map] at he
    obtain ⟨bw, _, rfl⟩ := he
    simpa using h

lemma calc_lut_unmasked (delta pos0_min : ℚ) (bins : ℤ) (inf sup : List ℚ)
    (cmask : ℕ → Bool) (p1 : Option (List ℚ × List ℚ × ℚ × ℚ)) :
    ∀ e ∈ calc_lut delta pos0_min bins inf sup cmask p1,
      cmask e.idx = false := by
  intro e he
  rw [calc_lut_gate] at he
  have h := mem_gate_flatMap_unmasked e he
  exact (Bool.or_eq_false_iff.mp h).1

lemma calc_lut_nosplit_unmasked (delta pos0_min : ℚ) (bins : ℤ)
    (cpos0 : List ℚ) (cmask : ℕ → Bool)
    (p1 : Option (List ℚ × List ℚ × ℚ × ℚ)) :
    ∀ e ∈ calc_lut_nosplit delta pos0_min bins cpos0 cmask p1,
      cmask e.idx = false := by
  intro e he
  rw [calc_lut_nosplit_gate] at he
  have h := mem_gate_flatMap_unmasked e he
  exact (Bool.or_eq_false_iff.mp h).1

lemma calc_lut2d_unmasked (delta0 pos0_min delta1 pos1_min : ℚ)
    (bins0 bins1 : ℤ) (inf0 sup0 inf1 sup1 : List ℚ) (cmask : ℕ → Bool) :
    ∀ e ∈ calc_lut2d delta0 pos0_min delta1 pos1_min bins0 bins1
        inf0 sup0 inf1 sup1 cmask,
      cmask e.idx = false := by
  intro e he
  unfold calc_lut2d at he
  exact mem_gate_flatMap_unmasked e he

lemma zipWith_getD (f : ℚ → ℚ → ℚ) (l1 l2 : List ℚ) (idx : ℕ)
    (h1 : idx < l1.length) (h2 : idx < l2.length) :
    (List.zipWith f l1 l2).getD idx 0 = f (l1.getD idx 0) (l2.getD idx 0) := by
  induction l1 generalizing l2 idx with
  | nil => simp at h1
  | cons a t ih =>
    cases l2 with
    | nil => simp at h2
    | cons b s =>
      cases idx with
      | zero => rfl
      | succ k =>
        simp only [List.zipWith_cons_cons, List.getD_cons_succ]
        exact ih s k (by simpa using h1) (by simpa using h2)

end Claim3Claim4Support

end SplitBBoxLUT

namespace SplitBBoxLUT

section Claim3Main

/-- C3, counterexample to the claim as stated: the boundary scan is seeded
with `cpos0[0]` regardless of the mask (line 191), so a MASKED pixel 0 does
influence the automatically computed range.  With `pos0 = [100, 1]`,
`delta_pos0 = [0, 0]`, pixel 0 masked and pixel 1 unmasked, the scanned
maximum (`pos0_maxin`) is `100`, while the maximum of the upper bounds over
unmasked pixels only is `1`. -/
theorem claim3_counterexample :
    (HistoBBox1d_init [100, 1] (some [0, 0]) none none 1 none none
      (some [true, false]) true).toOption.map Hb1d.pos0_maxin = some 100 ∧
    spec_unmasked_max (cpos0_sup [100, 1] [0, 0])
      (fun i => [true, false].getD i false) = some 1 ∧
    (100 : ℚ) ≠ 1 := by
  refine ⟨?_, ?_, by norm_num⟩
  · norm_num [HistoBBox1d_init, cpos0_inf, cpos0_sup, clamp_lower, bounds_seed,
      calc_boundaries_scan, finalize_bounds, calc_upper_bound, eps32,
      List.range_succ, min_def, max_def, List.headI]
    exact ⟨_, rfl, rfl⟩
  · simp [spec_unmasked_max, cpos0_sup, List.range_succ]

/-- C3 (amended): no masked pixel ever appears in any LUT entry (1D split,
1D no-split and 2D builders), and the automatically computed bounds equal the
running min of lower bounds / max of upper bounds folded over the UNMASKED
pixels only — but seeded with the first pixel's coordinate regardless of its
mask, so a masked pixel 0 still influences the result. -/
theorem claim3_theorem :
    (∀ (delta pos0_min : ℚ) (bins : ℤ) (inf sup : List ℚ) (cmask : ℕ → Bool)
        (p1 : Option (List ℚ × List ℚ × ℚ × ℚ)),
      ∀ e ∈ calc_lut delta pos0_min bins inf sup cmask p1,
        cmask e.idx = false) ∧
    (∀ (delta pos0_min : ℚ) (bins : ℤ) (cpos0 : List ℚ) (cmask : ℕ → Bool)
        (p1 : Option (List ℚ × List ℚ × ℚ × ℚ)),
      ∀ e ∈ calc_lut_nosplit delta pos0_min bins cpos0 cmask p1,
        cmask e.idx = false) ∧
    (∀ (delta0 pos0_min delta1 pos1_min : ℚ) (bins0 bins1 : ℤ)
        (inf0 sup0 inf1 sup1 : List ℚ) (cmask : ℕ → Bool),
      ∀ e ∈ calc_lut2d delta0 pos0_min delta1 pos1_min bins0 bins1
          inf0 sup0 inf1 sup1 cmask,
        cmask e.idx = false) ∧
    (∀ (cmask : ℕ → Bool) (lows highs : List ℚ) (seed : ℚ × ℚ),
      calc_boundaries_scan cmask lows highs seed =
        ((List.range lows.length).filter (fun i => !cmask i)).foldl
          (fun acc i =>
            (min acc.1 (lows.getD i 0), max acc.2 (highs.getD i 0))) seed) :=
  ⟨calc_lut_unmasked, calc_lut_nosplit_unmasked, calc_lut2d_unmasked,
   calc_boundaries_scan_filter⟩

/-- Witness for C3 at a concrete input: pixel 0 masked, pixel 1 unmasked with
fractional range `[3/2, 3/2]`; the emitted entry has an unmasked index, and
the scan over `[0, 1]`/`[0, 1]` with pixel 0 masked folds only index 1. -/
theorem claim3_witness :
    (fun i => [true, false].getD i false) ((LutEntry.mk 1 1 (1 : ℚ)).idx) = false ∧
    calc_boundaries_scan (fun i => [true, false].getD i false)
      ([0, 1] : List ℚ) ([0, 1] : List ℚ) (0, 0) =
      ((List.range 2).filter
        (fun i => !(fun i => [true, false].getD i false) i)).foldl
        (fun acc i => (min acc.1 (([0, 1] : List ℚ).getD i 0),
          max acc.2 (([0, 1] : List ℚ).getD i 0))) (0, 0) := by
  constructor
  · apply claim3_theorem.1 1 0 4 [0, 3/2] [0, 3/2]
      (fun i => [true, false].getD i false) none
    have hr2 : List.range 2 = [0, 1] := rfl
    unfold calc_lut
    norm_num [hr2, pos1_reject, lut_weights, ctrunc, clampLo, clampUp,
      get_bin_number]
  · exact claim3_theorem.2.2.2 (fun i => [true, false].getD i false)
      [0, 1] [0, 1] (0, 0)

end Claim3Main

end SplitBBoxLUT

namespace SplitBBoxLUT

section Claim4Main

/-- C4, counterexample to the claim as stated: with `allow_pos0_neg = false`,
a pixel with coordinate `1` and extent `2` has lower bound `1 - 2 = -1 < 0`.
The stored per-pixel lower bound (`cpos0_inf`, line 203) keeps the raw `-1`
— the clamp at lines 204–205 only affects the min/max tracking — and
`calc_lut` computes `fbin0_min` from that raw value: with `pos0_min = 0`,
`delta = 1`, `bins = 3`, the emitted weights differ from what clamping the
lower bound to `0` would give. -/
theorem claim4_counterexample :
    cpos0_inf [1] [2] = [-1] ∧ (-1 : ℚ) < 0 ∧
    clamp_lower false (-1) = 0 ∧
    calc_lut 1 0 3 (cpos0_inf [1] [2]) [3] (fun _ => false) none ≠
      calc_lut 1 0 3 [0] [3] (fun _ => false) none := by
  have hinf : cpos0_inf [1] [2] = [-1] := by
    norm_num [cpos0_inf]
  have hceil : (⌈(-1 : ℚ)⌉ : ℤ) = -1 := by
    rw [show ((-1 : ℚ)) = ((-1 : ℤ) : ℚ) by norm_num, Int.ceil_intCast]
  have hr1 : List.range 1 = [0] := rfl
  have hL : calc_lut 1 0 3 [-1] [3] (fun _ => false) none =
      [LutEntry.mk 0 0 (1/2), LutEntry.mk 2 0 (1/4), LutEntry.mk 1 0 (1/4)] := by
    unfold calc_lut
    norm_num [hr1, pos1_reject, lut_weights, ctrunc, clampLo, clampUp,
      get_bin_number, hceil, intRange, List.range_succ]
  have hR : calc_lut 1 0 3 [0] [3] (fun _ => false) none =
      [LutEntry.mk 0 0 (1/3), LutEntry.mk 2 0 (1/3), LutEntry.mk 1 0 (1/3)] := by
    unfold calc_lut
    norm_num [hr1, pos1_reject, lut_weights, ctrunc, clampLo, clampUp,
      get_bin_number, intRange, List.range_succ]
    norm_num [show Int.toNat 2 - 1 = 1 from rfl, hr1]
  refine ⟨hinf, by norm_num, by norm_num [clamp_lower], ?_⟩
  rw [hinf, hL, hR]
  intro h
  simp only [List.cons.injEq, LutEntry.mk.injEq] at h
  have : (1/2 : ℚ) = 1/3 := h.1.2.2
  norm_num at this

/-- C4 (amended): when `allow_pos0_neg` is false the negative lower bound is
clamped to `0` for bounds tracking only — the final `pos0_min` is never
negative, and the clamp `clamp_lower` forces negative lowers to `0` in the
running scan — but the STORED per-pixel lower bound used by `calc_lut` to
compute `fbin0_min` is the raw `coordinate - extent`, NOT clamped. -/
theorem claim4_theorem :
    (∀ (cpos0 dpos0 : List ℚ) (idx : ℕ),
      idx < cpos0.length → idx < dpos0.length →
      (cpos0_inf cpos0 dpos0).getD idx 0 =
        cpos0.getD idx 0 - dpos0.getD idx 0) ∧
    (∀ (x : ℚ), x < 0 → clamp_lower false x = 0) ∧
    (∀ (scanned : ℚ × ℚ) (r : Option (ℚ × ℚ)),
      0 ≤ (finalize_bounds false scanned r).1) := by
  refine ⟨?_, ?_, ?_⟩
  · intro cpos0 dpos0 idx h1 h2
    exact zipWith_getD (fun c d => c - d) cpos0 dpos0 idx h1 h2
  · intro x hx
    simp [clamp_lower, hx]
  · intro scanned r
    unfold finalize_bounds
    dsimp only
    split
    · rfl
    · rename_i h
      push_neg at h
      simpa using h rfl

/-- Witness for C4 at concrete inputs. -/
theorem claim4_witness :
    (cpos0_inf [1] [3]).getD 0 0 = ([1] : List ℚ).getD 0 0 - ([3] : List ℚ).getD 0 0 ∧
    clamp_lower false (-2) = 0 ∧
    0 ≤ (finalize_bounds false (-5, 7) none).1 :=
  ⟨claim4_theorem.1 [1] [3] 0 (by norm_num) (by norm_num),
   claim4_theorem.2.1 (-2) (by norm_num),
   claim4_theorem.2.2 (-5, 7) none⟩

end Claim4Main

end SplitBBoxLUT

namespace SplitBBoxLUT

section Claim6Main

/-- C6, counterexample to the claim as stated: in the 2D builder a
size-mismatched `delta_pos0` does NOT silently disable splitting — line 437
is a hard `assert delta_pos0.size == self.size`, and an absent `delta_pos0`
raises on `None.size`; in both cases construction fails. -/
theorem claim6_counterexample :
    (HistoBBox2d_init [1, 2] (some [1]) (some [0, 0]) (some [0, 0]) 2 2
      none none none false true 3).toOption = none ∧
    (HistoBBox2d_init [1, 2] none (some [0, 0]) (some [0, 0]) 2 2
      none none none false true 3).toOption = none := by
  constructor
  · rfl
  · rfl

/-- C6 (amended): in the 1D builder an absent or size-mismatched `delta_pos0`
is non-fatal — the constructor behaves exactly as if `delta_pos0` were
absent, and every successful construction then uses the no-split LUT path.
In the 2D builder, by contrast, an absent or size-mismatched `delta_pos0`
makes construction FAIL (hard assertion / attribute error); there is no
no-split fallback. -/
theorem claim6_theorem :
    (∀ (pos0 d : List ℚ) (p1 d1 : Option (List ℚ)) (bins : ℤ)
        (r0 r1 : Option (ℚ × ℚ)) (mask : Option (List Bool)) (allow : Bool),
      d.length ≠ pos0.length →
      HistoBBox1d_init pos0 (some d) p1 d1 bins r0 r1 mask allow =
        HistoBBox1d_init pos0 none p1 d1 bins r0 r1 mask allow) ∧
    (∀ (pos0 : List ℚ) (p1 d1 : Option (List ℚ)) (bins : ℤ)
        (r0 r1 : Option (ℚ × ℚ)) (mask : Option (List Bool)) (allow : Bool)
        (st : Hb1d),
      HistoBBox1d_init pos0 none p1 d1 bins r0 r1 mask allow = Except.ok st →
      st.split_used = false) ∧
    (∀ (pos0 : List ℚ) (p1 d1 : Option (List ℚ)) (bins0 bins1 : ℤ)
        (r0 r1 : Option (ℚ × ℚ)) (mask : Option (List Bool))
        (allow chiDisc : Bool) (piQ : ℚ),
      (HistoBBox2d_init pos0 none p1 d1 bins0 bins1 r0 r1 mask
        allow chiDisc piQ).toOption = none) ∧
    (∀ (pos0 d0 : List ℚ) (p1 d1 : Option (List ℚ)) (bins0 bins1 : ℤ)
        (r0 r1 : Option (ℚ × ℚ)) (mask : Option (List Bool))
        (allow chiDisc : Bool) (piQ : ℚ),
      d0.length ≠ pos0.length →
      (HistoBBox2d_init pos0 (some d0) p1 d1 bins0 bins1 r0 r1 mask
        allow chiDisc piQ).toOption = none) := by
  refine ⟨?_, ?_, ?_, ?_⟩
  · intro pos0 d p1 d1 bins r0 r1 mask allow h
    unfold HistoBBox1d_init
    simp [h]
  · intro pos0 p1 d1 bins r0 r1 mask allow st h
    unfold HistoBBox1d_init at h
    cases pos0 <;> cases r0 <;>
      (dsimp only at h
       repeat' split at h
       all_goals (try (injection h with h))
       all_goals (try subst h)
       all_goals subst_eqs
       all_goals simp_all)
  · intro pos0 p1 d1 bins0 bins1 r0 r1 mask allow chiDisc piQ
    rfl
  · intro pos0 d0 p1 d1 bins0 bins1 r0 r1 mask allow chiDisc piQ h
    unfold HistoBBox2d_init
    simp [h]
    rfl

/-- Witness for C6 at concrete inputs: a 1D build with a mismatched extent
array equals the build with no extent array; a 2D build with an absent or
mismatched extent array fails. -/
theorem claim6_witness :
    (HistoBBox1d_init [1] (some [1, 2]) none none 4 (some (0, 2)) none none
        true =
      HistoBBox1d_init [1] none none none 4 (some (0, 2)) none none true) ∧
    (HistoBBox2d_init [1] none (some [0]) (some [0]) 2 2 none none none
      false true 3).toOption = none ∧
    (HistoBBox2d_init [1, 2] (some [9]) (some [0, 0]) (some [0, 0]) 2 2
      none none none false true 3).toOption = none :=
  ⟨claim6_theorem.1 [1] [1, 2] none none 4 (some (0, 2)) none none true
      (by norm_num),
   claim6_theorem.2.2.1 [1] (some [0]) (some [0]) 2 2 none none none
     false true 3,
   claim6_theorem.2.2.2 [1, 2] [9] (some [0, 0]) (some [0, 0]) 2 2
     none none none false true 3 (by norm_num)⟩

end Claim6Main

end SplitBBoxLUT

namespace SplitBBoxLUT

section Claim9Main

lemma except_toOption_eq_some {ε α : Type} (e : Except ε α) (a : α) :
    e.toOption = some a ↔ e = Except.ok a := by
  cases e <;> simp [Except.toOption]

set_option maxHeartbeats 1600000 in
/-- Inversion for the 2D constructor: every successful construction floors
both requested bin counts to at least `1`. -/
lemma hb2d_bins_floor (pos0 : List ℚ) (dp0 p1 d1 : Option (List ℚ))
    (bins0in bins1in : ℤ) (r0 r1 : Option (ℚ × ℚ)) (mask : Option (List Bool))
    (allow chiDisc : Bool) (piQ : ℚ) (st : Hb2d)
    (h : HistoBBox2d_init pos0 dp0 p1 d1 bins0in bins1in r0 r1 mask
      allow chiDisc piQ = Except.ok st) :
    st.bins0 = (if bins0in ≤ 0 then 1 else bins0in) ∧
    st.bins1 = (if bins1in ≤ 0 then 1 else bins1in) ∧
    1 ≤ st.bins0 ∧ 1 ≤ st.bins1 := by
  unfold HistoBBox2d_init at h
  cases dp0 <;> cases p1 <;> cases d1 <;>
    (dsimp only at h
     repeat' split at h
     all_goals (try (injection h with h))
     all_goals (try subst h)
     all_goals (first
       | exact Except.noConfusion h
       | simp_all)
     all_goals (constructor <;> (first | (split <;> omega) | omega)))

/-- Inversion for the 1D constructor: the requested scalar bin count is used
unchanged — in particular it is NOT floored to 1. -/
lemma hb1d_bins_id (pos0 : List ℚ) (dp0 p1 d1 : Option (List ℚ)) (bins : ℤ)
    (r0 r1 : Option (ℚ × ℚ)) (mask : Option (List Bool)) (allow : Bool)
    (st : Hb1d)
    (h : HistoBBox1d_init pos0 dp0 p1 d1 bins r0 r1 mask allow =
      Except.ok st) : st.bins = bins := by
  unfold HistoBBox1d_init at h
  cases pos0 <;> cases r0 <;>
    (dsimp only at h
     repeat' split at h
     all_goals (try (injection h with h))
     all_goals (try subst h)
     all_goals subst_eqs
     all_goals simp_all)

/-- C9, counterexample to the claim as stated: the 1D builder does NOT floor
the requested bin count — passing `bins = 0` stores `bins = 0` (and the bin
width is computed with divisor `0`), so the number of output bins actually
used is not at least 1. -/
theorem claim9_counterexample :
    (HistoBBox1d_init [1] none none none 0 (some (0, 2)) none none
      false).toOption.map Hb1d.bins = some 0 ∧ ¬ (1 : ℤ) ≤ 0 := by
  constructor
  · norm_num [HistoBBox1d_init, finalize_bounds, calc_upper_bound, eps32]
    exact ⟨_, rfl, rfl⟩
  · norm_num

/-- C9 (amended): the 2D builder floors each member of the requested bin-count
pair to at least 1 (`bins0, bins1 ≥ 1` in every successful construction); the
1D builder performs NO such flooring — the scalar bin count is stored exactly
as passed, so a nonpositive 1D bin count is not raised to 1. -/
theorem claim9_theorem :
    (∀ (pos0 : List ℚ) (dp0 p1 d1 : Option (List ℚ)) (bins0in bins1in : ℤ)
        (r0 r1 : Option (ℚ × ℚ)) (mask : Option (List Bool))
        (allow chiDisc : Bool) (piQ : ℚ) (st : Hb2d),
      (HistoBBox2d_init pos0 dp0 p1 d1 bins0in bins1in r0 r1 mask
        allow chiDisc piQ).toOption = some st →
      st.bins0 = (if bins0in ≤ 0 then 1 else bins0in) ∧
      st.bins1 = (if bins1in ≤ 0 then 1 else bins1in) ∧
      1 ≤ st.bins0 ∧ 1 ≤ st.bins1) ∧
    (∀ (pos0 : List ℚ) (dp0 p1 d1 : Option (List ℚ)) (bins : ℤ)
        (r0 r1 : Option (ℚ × ℚ)) (mask : Option (List Bool)) (allow : Bool)
        (st : Hb1d),
      (HistoBBox1d_init pos0 dp0 p1 d1 bins r0 r1 mask allow).toOption =
        some st →
      st.bins = bins) := by
  constructor
  · intro pos0 dp0 p1 d1 bins0in bins1in r0 r1 mask allow chiDisc piQ st h
    rw [except_toOption_eq_some] at h
    exact hb2d_bins_floor pos0 dp0 p1 d1 bins0in bins1in r0 r1 mask
      allow chiDisc piQ st h
  · intro pos0 dp0 p1 d1 bins r0 r1 mask allow st h
    rw [except_toOption_eq_some] at h
    exact hb1d_bins_id pos0 dp0 p1 d1 bins r0 r1 mask allow st h

end Claim9Main

end SplitBBoxLUT

namespace SplitBBoxLUT

/-- Witness for C9 at concrete inputs: a 2D build requested with bin counts
`(0, -3)` actually uses `(1, 1)`; a 1D build requested with `0` bins stores
`0`. -/
theorem claim9_witness :
    ({ size := 1, bins0 := 1, bins1 := 1,
       pos0_min := 0, pos0_maxin := 1, pos0_max := 8388609/8388608,
       delta0 := 8388609/8388608,
       pos1_min := 0, pos1_maxin := 1, pos1_max := 8388609/8388608,
       delta1 := 8388609/8388608,
       lut := [LutEntry.mk 0 0 1],
       bin_centers0 := [8388609/16777216],
       bin_centers1 := [8388609/16777216] } : Hb2d).bins0 =
        (if (0 : ℤ) ≤ 0 then 1 else 0) ∧
    ({ size := 1, bins := 0, split_used := false, check_pos1 := false,
       pos0_min := 0, pos0_maxin := 2, pos0_max := 8388609/4194304,
       delta := 0, lut := [], bin_centers := [] } : Hb1d).bins = 0 := by
  constructor
  · exact (claim9_theorem.1 [0] (some [0]) (some [0]) (some [0]) 0 (-3)
      (some (0, 1)) (some (0, 1)) none false true 3 _ (by
        norm_num [HistoBBox2d_init, finalize_bounds, finalize_bounds1,
          calc_upper_bound, eps32, cpos0_inf, cpos0_sup, clamp_lower,
          chi_clamp_lower, chi_clamp_upper, calc_boundaries_scan, calc_lut2d,
          lut_weights2d, ctrunc, clampLo, clampUp, get_bin_number, linspace,
          List.range_succ, min_def, max_def, List.headI, Except.toOption])).1
  · exact claim9_theorem.2 [1] none none none 0 (some (0, 2)) none none
      false _ (by
        norm_num [HistoBBox1d_init, finalize_bounds, calc_upper_bound, eps32,
          calc_lut_nosplit, nosplit_weights, ctrunc, get_bin_number, linspace,
          List.range_succ, List.headI, Except.toOption])

end SplitBBoxLUT

namespace SplitBBoxLUT

section Claim10Main

/-- C10: in `HistoBBox1d`, when `pos1_range` is `None` the `pos1` and
`delta_pos1` arguments have no effect: two constructions differing only in
`pos1`/`delta_pos1` produce identical results (bounds, bin width, LUT, bin
centers — the whole constructed object), and no secondary-dimension filtering
is applied (`check_pos1` is false in every successful construction). -/
theorem claim10_theorem :
    ∀ (pos0 : List ℚ) (delta_pos0 p1 d1 p1' d1' : Option (List ℚ)) (bins : ℤ)
      (pos0_range : Option (ℚ × ℚ)) (mask : Option (List Bool)) (allow : Bool),
      (HistoBBox1d_init pos0 delta_pos0 p1 d1 bins pos0_range none mask
          allow =
        HistoBBox1d_init pos0 delta_pos0 p1' d1' bins pos0_range none mask
          allow) ∧
      (∀ st, HistoBBox1d_init pos0 delta_pos0 p1 d1 bins pos0_range none mask
          allow = Except.ok st → st.check_pos1 = false) := by
  intro pos0 delta_pos0 p1 d1 p1' d1' bins pos0_range mask allow
  constructor
  · rfl
  · intro st h
    unfold HistoBBox1d_init at h
    cases pos0 <;> cases pos0_range <;>
      (dsimp only at h
       repeat' split at h
       all_goals (try (injection h with h))
       all_goals (try subst h)
       all_goals subst_eqs
       all_goals simp_all)

/-- Witness for C10 at concrete inputs: two builds with different
`pos1`/`delta_pos1` (and `pos1_range` absent) coincide; a successful build
has the secondary filter off. -/
theorem claim10_witness :
    (HistoBBox1d_init [1] (some [1]) (some [4]) (some [5]) 3 none none none
        true =
      HistoBBox1d_init [1] (some [1]) (some [6]) (some [7]) 3 none none none
        true) ∧
    ({ size := 1, bins := 0, split_used := false, check_pos1 := false,
       pos0_min := 0, pos0_maxin := 2, pos0_max := 8388609/4194304,
       delta := 0, lut := [], bin_centers := [] } : Hb1d).check_pos1 =
      false := by
  constructor
  · exact (claim10_theorem [1] (some [1]) (some [4]) (some [5]) (some [6])
      (some [7]) 3 none none true).1
  · exact (claim10_theorem [1] none none none none none 0 (some (0, 2)) none
      false).2 _ (by
        norm_num [HistoBBox1d_init, finalize_bounds, calc_upper_bound, eps32,
          calc_lut_nosplit, nosplit_weights, ctrunc, get_bin_number, linspace,
          List.range_succ, List.headI])

end Claim10Main

end SplitBBoxLUT
